import Mathlib

/-!
# Verification of the Secret Santa backend

A shallow embedding of the core operations of the Secret Santa service:
the derangement generator (`generateDerangement`), the approval/disclosure
workflow handlers (`setWish`, `approveWish`, `submitAddress`, `approveAddress`,
`acknowledge`, `getAssignment`, `shuffle`) over an explicit database state,
and the at-rest secret codec (CBC mode with PKCS#7 padding and base64
transport around an abstract 16-byte block cipher).

Where the repository contains two variants of a handler (the hardened
routes in `routes/user.js` / the admin router stored alongside the
`Acknowledgement` model, and the older variants kept in the unnamed route
files), both are embedded, with the older ones suffixed `Legacy`.
-/

namespace SecretSanta

/-! ## Generic list helpers -/

theorem getD_set_self {α : Type _} (l : List α) (i : Nat) (v d : α) (h : i < l.length) :
    (l.set i v).getD i d = v := by
  rw [List.getD_eq_getElem?_getD, List.getElem?_set_self h]
  rfl

theorem getD_set_ne {α : Type _} (l : List α) {i j : Nat} (v d : α) (h : i ≠ j) :
    (l.set i v).getD j d = l.getD j d := by
  rw [List.getD_eq_getElem?_getD, List.getElem?_set_ne h, ← List.getD_eq_getElem?_getD]

theorem getD_range {n k : Nat} (h : k < n) : (List.range n).getD k 0 = k := by
  rw [List.getD_eq_getElem (List.range n) 0 (by simpa using h)]
  exact List.getElem_range k _

theorem getD_mem_of_lt {α : Type _} (l : List α) (k : Nat) (d : α) (h : k < l.length) :
    l.getD k d ∈ l := by
  rw [List.getD_eq_getElem l d h]
  exact List.getElem_mem h

/-! ## The derangement generator

Translated from `generateDerangement` (identical in the admin shuffle route
and in `scripts/testShuffle.js`):

1. a Fisher–Yates pass over the index permutation `[0, …, n-1]`, drawing
   `j = Math.floor(Math.random() * (i + 1))` for `i = n-1 … 1`;
2. a fixup pass: collect fixed points; if exactly one at `i`, swap it with
   position 0 (position 1 when `i = 0`); if more than one, cyclically rotate
   the values at the fixed positions;
3. map indices back to the input identifiers.

The random source is modelled by an arbitrary function `rand : Nat → Nat`;
the draw at step `i` is `rand i % (i + 1)`, which ranges over exactly the
values `[0, i]` the source can draw. -/

def listSwap (p : List Nat) (a b : Nat) : List Nat :=
  (p.set a (p.getD b 0)).set b (p.getD a 0)

def fyLoop (rand : Nat → Nat) : Nat → List Nat → List Nat
  | 0, p => p
  | i + 1, p => fyLoop rand i (listSwap p (i + 1) (rand (i + 1) % (i + 2)))

def fisherYates (rand : Nat → Nat) (n : Nat) : List Nat :=
  fyLoop rand (n - 1) (List.range n)

def fixedPoints (p : List Nat) : List Nat :=
  (List.range p.length).filter (fun i => p.getD i 0 == i)

def fixup (p : List Nat) : List Nat :=
  let fixed := fixedPoints p
  if fixed.length = 1 then
    let i := fixed.getD 0 0
    let swapWith := if i = 0 then 1 else 0
    listSwap p i swapWith
  else if 1 < fixed.length then
    let vals := fixed.map (fun idx => p.getD idx 0)
    (List.range fixed.length).foldl
      (fun q k => q.set (fixed.getD k 0) (vals.getD ((k + 1) % fixed.length) 0)) p
  else
    p

def generateDerangement {α : Type _} (rand : Nat → Nat) (arr : List α) (d : α) :
    Except String (List α) :=
  let n := arr.length
  if n ≤ 1 then
    .error "Need at least 2 participants"
  else
    let perm := fixup (fisherYates rand n)
    .ok (perm.map (fun idx => arr.getD idx d))

/-! ## Permutation invariant

`IsPermList n p` states that `p` is a length-`n` list holding a permutation
of the indices `0 … n-1`: entries are below `n` and positions carrying equal
entries coincide. -/

def IsPermList (n : Nat) (p : List Nat) : Prop :=
  p.length = n ∧ (∀ k, k < n → p.getD k 0 < n) ∧
    ∀ k1 k2, k1 < n → k2 < n → p.getD k1 0 = p.getD k2 0 → k1 = k2

theorem isPermList_range (n : Nat) : IsPermList n (List.range n) := by
  refine ⟨List.length_range n, ?_, ?_⟩
  · intro k hk
    rw [getD_range hk]
    exact hk
  · intro k1 k2 h1 h2 h
    rwa [getD_range h1, getD_range h2] at h

theorem length_listSwap (p : List Nat) (a b : Nat) :
    (listSwap p a b).length = p.length := by
  simp [listSwap]

theorem getD_listSwap (p : List Nat) (a b j : Nat) (ha : a < p.length) (hb : b < p.length) :
    (listSwap p a b).getD j 0 =
      if j = b then p.getD a 0 else if j = a then p.getD b 0 else p.getD j 0 := by
  unfold listSwap
  by_cases hjb : j = b
  · subst hjb
    rw [if_pos rfl]
    exact getD_set_self _ _ _ _ (by simpa using hb)
  · rw [if_neg hjb, getD_set_ne _ _ _ (fun h => hjb h.symm)]
    by_cases hja : j = a
    · subst hja
      rw [if_pos rfl]
      exact getD_set_self _ _ _ _ ha
    · rw [if_neg hja, getD_set_ne _ _ _ (fun h => hja h.symm)]

theorem isPermList_listSwap {n : Nat} {p : List Nat} (h : IsPermList n p)
    {a b : Nat} (ha : a < n) (hb : b < n) : IsPermList n (listSwap p a b) := by
  obtain ⟨hlen, hlt, hinj⟩ := h
  have ha' : a < p.length := by rwa [hlen]
  have hb' : b < p.length := by rwa [hlen]
  refine ⟨by rw [length_listSwap, hlen], ?_, ?_⟩
  · intro k hk
    rw [getD_listSwap p a b k ha' hb']
    split
    · exact hlt a ha
    · split
      · exact hlt b hb
      · exact hlt k hk
  · intro k1 k2 h1 h2 heq
    rw [getD_listSwap p a b k1 ha' hb', getD_listSwap p a b k2 ha' hb'] at heq
    by_cases h1b : k1 = b <;> by_cases h2b : k2 = b
    · rw [h1b, h2b]
    · rw [if_pos h1b] at heq
      rw [if_neg h2b] at heq
      by_cases h2a : k2 = a
      · rw [if_pos h2a] at heq
        have : a = b := hinj a b ha hb heq
        subst h1b h2a
        exact this.symm
      · rw [if_neg h2a] at heq
        have : a = k2 := hinj a k2 ha h2 heq
        exact absurd this.symm h2a
    · rw [if_neg h1b] at heq
      rw [if_pos h2b] at heq
      by_cases h1a : k1 = a
      · rw [if_pos h1a] at heq
        have : b = a := hinj b a hb ha heq
        subst h2b h1a
        exact this.symm
      · rw [if_neg h1a] at heq
        have : k1 = a := hinj k1 a h1 ha heq
        exact absurd this h1a
    · rw [if_neg h1b, if_neg h2b] at heq
      by_cases h1a : k1 = a <;> by_cases h2a : k2 = a
      · rw [h1a, h2a]
      · rw [if_pos h1a, if_neg h2a] at heq
        have : b = k2 := hinj b k2 hb h2 heq
        exact absurd this.symm h2b
      · rw [if_neg h1a, if_pos h2a] at heq
        have : k1 = b := hinj k1 b h1 hb heq
        exact absurd this h1b
      · rw [if_neg h1a, if_neg h2a] at heq
        exact hinj k1 k2 h1 h2 heq

theorem isPermList_fyLoop {n : Nat} (rand : Nat → Nat) :
    ∀ (i : Nat) (p : List Nat), IsPermList n p → i < n → IsPermList n (fyLoop rand i p)
  | 0, p, hp, _ => hp
  | i + 1, p, hp, hi => by
    have hj : rand (i + 1) % (i + 2) < n :=
      lt_of_le_of_lt (Nat.le_of_lt_succ (Nat.mod_lt _ (Nat.succ_pos _))) hi
    exact isPermList_fyLoop rand i _ (isPermList_listSwap hp hi hj)
      (Nat.lt_of_succ_lt hi)

theorem isPermList_fisherYates (rand : Nat → Nat) {n : Nat} (hn : 1 ≤ n) :
    IsPermList n (fisherYates rand n) :=
  isPermList_fyLoop rand (n - 1) _ (isPermList_range n) (Nat.sub_lt hn Nat.one_pos)

/-! ## Fixed points and the fixup pass -/

theorem mem_fixedPoints {p : List Nat} {i : Nat} :
    i ∈ fixedPoints p ↔ i < p.length ∧ p.getD i 0 = i := by
  simp [fixedPoints, List.mem_filter, List.mem_range]

theorem nodup_fixedPoints (p : List Nat) : (fixedPoints p).Nodup :=
  (List.nodup_range _).filter _

theorem nodup_getD_inj {α : Type _} {l : List α} {d : α} (h : l.Nodup) {k1 k2 : Nat}
    (h1 : k1 < l.length) (h2 : k2 < l.length) (heq : l.getD k1 d = l.getD k2 d) : k1 = k2 := by
  rw [List.getD_eq_getElem l d h1, List.getD_eq_getElem l d h2,
    ← List.get_eq_getElem l ⟨k1, h1⟩, ← List.get_eq_getElem l ⟨k2, h2⟩] at heq
  have := (List.Nodup.get_inj_iff h).1 heq
  exact congrArg Fin.val this

theorem getD_map_lt {α β : Type _} (f : α → β) (l : List α) (dA : α) (dB : β) {n : Nat}
    (h : n < l.length) : (l.map f).getD n dB = f (l.getD n dA) := by
  rw [List.getD_eq_getElem _ _ (by simpa using h), List.getD_eq_getElem _ _ h, List.getElem_map]

theorem foldl_set_length (ks : List Nat) (f g : Nat → Nat) (p : List Nat) :
    (ks.foldl (fun q k => q.set (f k) (g k)) p).length = p.length := by
  induction ks generalizing p with
  | nil => rfl
  | cons k0 rest ih =>
    rw [List.foldl_cons, ih, List.length_set]

theorem foldl_set_getD_not_mem (ks : List Nat) (f g : Nat → Nat) (p : List Nat) (j d : Nat)
    (h : ∀ k ∈ ks, f k ≠ j) :
    (ks.foldl (fun q k => q.set (f k) (g k)) p).getD j d = p.getD j d := by
  induction ks generalizing p with
  | nil => rfl
  | cons k0 rest ih =>
    rw [List.foldl_cons, ih _ (fun k hk => h k (List.mem_cons_of_mem _ hk)),
      getD_set_ne _ _ _ (h k0 (List.mem_cons_self _ _))]

theorem foldl_set_getD_mem (ks : List Nat) (f g : Nat → Nat) (hnd : ks.Nodup)
    (hinj : ∀ k1 ∈ ks, ∀ k2 ∈ ks, f k1 = f k2 → k1 = k2) :
    ∀ (p : List Nat) (k : Nat), k ∈ ks → f k < p.length → ∀ d : Nat,
      (ks.foldl (fun q k => q.set (f k) (g k)) p).getD (f k) d = g k := by
  induction ks with
  | nil => intro p k hk; cases hk
  | cons k0 rest ih =>
    intro p k hk hflt d
    obtain ⟨hk0, hrest⟩ := List.nodup_cons.1 hnd
    rw [List.foldl_cons]
    rcases List.mem_cons.1 hk with rfl | hk'
    · have hne : ∀ k' ∈ rest, f k' ≠ f k := by
        intro k' hk' heq
        have : k' = k :=
          hinj k' (List.mem_cons_of_mem _ hk') k (List.mem_cons_self _ _) heq
        exact hk0 (this ▸ hk')
      rw [foldl_set_getD_not_mem rest f g _ _ _ hne, getD_set_self _ _ _ _ hflt]
    · exact ih hrest
        (fun k1 h1 k2 h2 => hinj k1 (List.mem_cons_of_mem _ h1) k2 (List.mem_cons_of_mem _ h2))
        (p.set (f k0) (g k0)) k hk' (by rwa [List.length_set]) d

theorem succ_mod_cases {L k : Nat} (hk : k < L) :
    (k + 1) % L = k + 1 ∧ k + 1 < L ∨ (k + 1) % L = 0 ∧ k + 1 = L := by
  rcases Nat.lt_or_ge (k + 1) L with h | h
  · exact Or.inl ⟨Nat.mod_eq_of_lt h, h⟩
  · have hEq : k + 1 = L := Nat.le_antisymm hk h
    exact Or.inr ⟨hEq ▸ Nat.mod_self (k + 1), hEq⟩

theorem succ_mod_ne {L k : Nat} (hL : 1 < L) (hk : k < L) : (k + 1) % L ≠ k := by
  rcases succ_mod_cases hk with ⟨he, hlt⟩ | ⟨he, hEq⟩ <;> rw [he] <;> omega

theorem succ_mod_inj {L k1 k2 : Nat} (h1 : k1 < L) (h2 : k2 < L)
    (h : (k1 + 1) % L = (k2 + 1) % L) : k1 = k2 := by
  rcases succ_mod_cases h1 with ⟨e1, l1⟩ | ⟨e1, q1⟩ <;>
    rcases succ_mod_cases h2 with ⟨e2, l2⟩ | ⟨e2, q2⟩ <;> rw [e1, e2] at h <;> omega

theorem mem_getD_iff {l : List Nat} {j : Nat} :
    j ∈ l ↔ ∃ k, k < l.length ∧ l.getD k 0 = j := by
  constructor
  · intro h
    obtain ⟨⟨k, hk⟩, he⟩ := List.mem_iff_get.1 h
    refine ⟨k, hk, ?_⟩
    rw [List.getD_eq_getElem _ _ hk]
    simpa [List.get_eq_getElem] using he
  · rintro ⟨k, hk, he⟩
    exact he ▸ getD_mem_of_lt l k 0 hk

theorem fixup_eq_swap {p : List Nat} (h1 : (fixedPoints p).length = 1) :
    fixup p = listSwap p ((fixedPoints p).getD 0 0)
      (if (fixedPoints p).getD 0 0 = 0 then 1 else 0) := by
  simp only [fixup]
  rw [if_pos h1]

theorem fixup_eq_rot {p : List Nat} (hL : 1 < (fixedPoints p).length) :
    fixup p = (List.range (fixedPoints p).length).foldl
      (fun q k => q.set ((fixedPoints p).getD k 0)
        (((fixedPoints p).map (fun idx => p.getD idx 0)).getD
          ((k + 1) % (fixedPoints p).length) 0)) p := by
  simp only [fixup]
  rw [if_neg (by omega), if_pos hL]

theorem fixup_eq_id {p : List Nat} (h1 : (fixedPoints p).length ≠ 1)
    (h2 : ¬ 1 < (fixedPoints p).length) : fixup p = p := by
  simp only [fixup]
  rw [if_neg h1, if_neg h2]

theorem fixup_rot_getD_not_mem {p : List Nat} (hL : 1 < (fixedPoints p).length)
    {j : Nat} (hj : j ∉ fixedPoints p) : (fixup p).getD j 0 = p.getD j 0 := by
  rw [fixup_eq_rot hL]
  apply foldl_set_getD_not_mem
  intro k hk heq
  exact hj (heq ▸ getD_mem_of_lt _ _ _ (List.mem_range.1 hk))

theorem fixup_rot_getD_mem {p : List Nat} (hL : 1 < (fixedPoints p).length)
    {k : Nat} (hk : k < (fixedPoints p).length) :
    (fixup p).getD ((fixedPoints p).getD k 0) 0
      = (fixedPoints p).getD ((k + 1) % (fixedPoints p).length) 0 := by
  have hmod : (k + 1) % (fixedPoints p).length < (fixedPoints p).length :=
    Nat.mod_lt _ (by omega)
  have hmem : (fixedPoints p).getD ((k + 1) % (fixedPoints p).length) 0 ∈ fixedPoints p :=
    getD_mem_of_lt _ _ _ hmod
  rw [fixup_eq_rot hL]
  rw [foldl_set_getD_mem (List.range (fixedPoints p).length)
    (fun k => (fixedPoints p).getD k 0)
    (fun k => ((fixedPoints p).map (fun idx => p.getD idx 0)).getD
      ((k + 1) % (fixedPoints p).length) 0)
    (List.nodup_range _)
    (fun k1 hk1 k2 hk2 heq =>
      nodup_getD_inj (nodup_fixedPoints p) (List.mem_range.1 hk1) (List.mem_range.1 hk2) heq)
    p k (List.mem_range.2 hk) ((mem_fixedPoints.1 (getD_mem_of_lt _ _ _ hk)).1) 0]
  rw [getD_map_lt (fun idx => p.getD idx 0) (fixedPoints p) 0 0 hmod]
  exact (mem_fixedPoints.1 hmem).2

theorem length_fixup (p : List Nat) : (fixup p).length = p.length := by
  by_cases h1 : (fixedPoints p).length = 1
  · rw [fixup_eq_swap h1, length_listSwap]
  · by_cases h2 : 1 < (fixedPoints p).length
    · rw [fixup_eq_rot h2, foldl_set_length]
    · rw [fixup_eq_id h1 h2]

theorem fixup_derangement {n : Nat} {p : List Nat} (hp : IsPermList n p) (hn : 2 ≤ n) :
    IsPermList n (fixup p) ∧ ∀ j, j < n → (fixup p).getD j 0 ≠ j := by
  obtain ⟨hlen, hlt, hinj⟩ := hp
  by_cases h1 : (fixedPoints p).length = 1
  · -- exactly one fixed point: swap with position 0 (position 1 when it is 0)
    obtain ⟨a, ha⟩ := List.length_eq_one.1 h1
    have haf : a ∈ fixedPoints p := by rw [ha]; exact List.mem_cons_self _ _
    have hafix := mem_fixedPoints.1 haf
    have han : a < n := hlen ▸ hafix.1
    have hgetD0 : (fixedPoints p).getD 0 0 = a := by rw [ha]; rfl
    have hfe : fixup p = listSwap p a (if a = 0 then 1 else 0) := by
      rw [fixup_eq_swap h1, hgetD0]
    have hswn : (if a = 0 then 1 else 0) < n := by split <;> omega
    have hasw : a ≠ (if a = 0 then 1 else 0) := by split <;> omega
    constructor
    · rw [hfe]
      exact isPermList_listSwap ⟨hlen, hlt, hinj⟩ han hswn
    · intro j hj
      rw [hfe, getD_listSwap p a _ j (hlen ▸ han) (hlen ▸ hswn)]
      by_cases hjs : j = (if a = 0 then 1 else 0)
      · rw [if_pos hjs, hafix.2]
        exact fun hc => hasw (hc.trans hjs)
      · rw [if_neg hjs]
        by_cases hja : j = a
        · rw [if_pos hja]
          intro hc
          have hc2 : p.getD (if a = 0 then 1 else 0) 0 = p.getD a 0 := by
            rw [hc, hja, hafix.2]
          exact hasw (hinj _ _ hswn han hc2).symm
        · rw [if_neg hja]
          intro hc
          have : j ∈ fixedPoints p := mem_fixedPoints.2 ⟨hlen ▸ hj, hc⟩
          rw [ha, List.mem_singleton] at this
          exact hja this
  · by_cases h2 : 1 < (fixedPoints p).length
    · -- more than one fixed point: rotate the values at the fixed positions
      have hLpos : 0 < (fixedPoints p).length := by omega
      have hmemlt : ∀ x ∈ fixedPoints p, x < n := by
        intro x hx
        exact hlen ▸ (mem_fixedPoints.1 hx).1
      have hfixval : ∀ x ∈ fixedPoints p, p.getD x 0 = x := by
        intro x hx
        exact (mem_fixedPoints.1 hx).2
    -- value description of (fixup p).getD
      have hval : ∀ j, j < n → (j ∈ fixedPoints p →
            ∃ k, k < (fixedPoints p).length ∧ j = (fixedPoints p).getD k 0 ∧
              (fixup p).getD j 0 =
                (fixedPoints p).getD ((k + 1) % (fixedPoints p).length) 0) ∧
          (j ∉ fixedPoints p → (fixup p).getD j 0 = p.getD j 0) := by
        intro j _
        constructor
        · intro hjmem
          obtain ⟨k, hk, hkj⟩ := mem_getD_iff.1 hjmem
          exact ⟨k, hk, hkj.symm, by rw [← hkj]; exact fixup_rot_getD_mem h2 hk⟩
        · intro hjnot
          exact fixup_rot_getD_not_mem h2 hjnot
      constructor
      · refine ⟨(length_fixup p).trans hlen, ?_, ?_⟩
        · intro j hj
          by_cases hjmem : j ∈ fixedPoints p
          · obtain ⟨k, hk, _, hvj⟩ := (hval j hj).1 hjmem
            rw [hvj]
            exact hmemlt _ (getD_mem_of_lt _ _ _ (Nat.mod_lt _ hLpos))
          · rw [(hval j hj).2 hjmem]
            exact hlt j hj
        · intro j1 j2 hj1 hj2 heq
          by_cases hm1 : j1 ∈ fixedPoints p <;> by_cases hm2 : j2 ∈ fixedPoints p
          · obtain ⟨k1, hk1, hkj1, hv1⟩ := (hval j1 hj1).1 hm1
            obtain ⟨k2, hk2, hkj2, hv2⟩ := (hval j2 hj2).1 hm2
            rw [hv1, hv2] at heq
            have hkk : (k1 + 1) % (fixedPoints p).length
                = (k2 + 1) % (fixedPoints p).length :=
              nodup_getD_inj (nodup_fixedPoints p) (Nat.mod_lt _ hLpos)
                (Nat.mod_lt _ hLpos) heq
            rw [hkj1, hkj2, succ_mod_inj hk1 hk2 hkk]
          · obtain ⟨k1, hk1, hkj1, hv1⟩ := (hval j1 hj1).1 hm1
            rw [hv1, (hval j2 hj2).2 hm2] at heq
            have hymem : (fixedPoints p).getD ((k1 + 1) % (fixedPoints p).length) 0
                ∈ fixedPoints p := getD_mem_of_lt _ _ _ (Nat.mod_lt _ hLpos)
            have : j2 = (fixedPoints p).getD ((k1 + 1) % (fixedPoints p).length) 0 :=
              hinj _ _ hj2 (hmemlt _ hymem) (by rw [hfixval _ hymem]; exact heq.symm)
            exact absurd (this ▸ hymem) hm2
          · obtain ⟨k2, hk2, hkj2, hv2⟩ := (hval j2 hj2).1 hm2
            rw [hv2, (hval j1 hj1).2 hm1] at heq
            have hymem : (fixedPoints p).getD ((k2 + 1) % (fixedPoints p).length) 0
                ∈ fixedPoints p := getD_mem_of_lt _ _ _ (Nat.mod_lt _ hLpos)
            have : j1 = (fixedPoints p).getD ((k2 + 1) % (fixedPoints p).length) 0 :=
              hinj _ _ hj1 (hmemlt _ hymem) (by rw [hfixval _ hymem]; exact heq)
            exact absurd (this ▸ hymem) hm1
          · rw [(hval j1 hj1).2 hm1, (hval j2 hj2).2 hm2] at heq
            exact hinj j1 j2 hj1 hj2 heq
      · intro j hj hc
        by_cases hjmem : j ∈ fixedPoints p
        · obtain ⟨k, hk, hkj, hv⟩ := (hval j hj).1 hjmem
          rw [hv, hkj] at hc
          have := nodup_getD_inj (nodup_fixedPoints p) (Nat.mod_lt _ hLpos) hk hc
          exact succ_mod_ne h2 hk this
        · rw [(hval j hj).2 hjmem] at hc
          exact hjmem (mem_fixedPoints.2 ⟨hlen ▸ hj, hc⟩)
    · -- no fixed point: the shuffle output is already a derangement
      have h0 : fixedPoints p = [] := List.length_eq_zero.1 (by omega)
      rw [fixup_eq_id h1 h2]
      refine ⟨⟨hlen, hlt, hinj⟩, ?_⟩
      intro j hj hc
      have : j ∈ fixedPoints p := mem_fixedPoints.2 ⟨hlen ▸ hj, hc⟩
      rw [h0] at this
      cases this

theorem isPermList_perm_range {n : Nat} {p : List Nat} (hp : IsPermList n p) :
    p.Perm (List.range n) := by
  obtain ⟨hlen, hlt, hinj⟩ := hp
  have hnd : p.Nodup := by
    rw [List.nodup_iff_injective_get]
    intro k1 k2 he
    apply Fin.ext
    apply hinj k1.val k2.val (hlen ▸ k1.isLt) (hlen ▸ k2.isLt)
    rw [List.getD_eq_getElem _ _ k1.isLt, List.getD_eq_getElem _ _ k2.isLt]
    simpa [List.get_eq_getElem] using he
  have hsub : p ⊆ List.range n := by
    intro x hx
    obtain ⟨k, hk, he⟩ := mem_getD_iff.1 hx
    rw [List.mem_range]
    exact he ▸ hlt k (hlen ▸ hk)
  exact (List.subperm_of_subset hnd hsub).perm_of_length_le
    (by rw [List.length_range, hlen])

theorem map_getD_range {α : Type _} (l : List α) (d : α) :
    (List.range l.length).map (fun i => l.getD i d) = l := by
  apply List.ext_get
  · simp
  · intro k h1 h2
    rw [List.get_eq_getElem, List.get_eq_getElem, List.getElem_map, List.getElem_range]
    exact List.getD_eq_getElem l d h2

/-- **C1.** For every list of `N ≥ 2` distinct participant identifiers and every
sequence of random draws, `generateDerangement` returns a permutation of the
input list — `N` entries, all distinct, a rearrangement of the input — in which
no position keeps its own identifier (`out[i] ≠ arr[i]` for every `i`). -/
theorem generateDerangement_correct {α : Type _} (rand : Nat → Nat) (arr : List α) (d : α)
    (hn : 2 ≤ arr.length) (hnd : arr.Nodup) :
    ∃ out, generateDerangement rand arr d = .ok out ∧
      out.Perm arr ∧ out.length = arr.length ∧ out.Nodup ∧
      ∀ i, i < arr.length → out.getD i d ≠ arr.getD i d := by
  obtain ⟨hqp, hqd⟩ :=
    fixup_derangement (isPermList_fisherYates rand (n := arr.length) (by omega)) hn
  have hqlen := hqp.1
  have hqlt := hqp.2.1
  refine ⟨(fixup (fisherYates rand arr.length)).map (fun idx => arr.getD idx d), ?_, ?_, ?_, ?_, ?_⟩
  · simp only [generateDerangement]
    rw [if_neg (by omega)]
  · have hperm : (fixup (fisherYates rand arr.length)).Perm (List.range arr.length) :=
      isPermList_perm_range hqp
    have := hperm.map (fun idx => arr.getD idx d)
    rwa [map_getD_range arr d] at this
  · rw [List.length_map, hqlen]
  · have hperm : (fixup (fisherYates rand arr.length)).Perm (List.range arr.length) :=
      isPermList_perm_range hqp
    have hperm2 := (hperm.map (fun idx => arr.getD idx d))
    rw [map_getD_range arr d] at hperm2
    exact hperm2.nodup_iff.2 hnd
  · intro i hi
    rw [getD_map_lt (fun idx => arr.getD idx d) _ 0 d (by rw [hqlen]; exact hi)]
    intro hc
    exact hqd i hi (nodup_getD_inj hnd (hqlt i hi) hi hc)

theorem generateDerangement_correct_witness :
    ∃ out, generateDerangement (fun _ => 0) [10, 20] (0 : Nat) = .ok out ∧
      out.Perm [10, 20] ∧ out.length = 2 ∧ out.Nodup ∧
      ∀ i, i < 2 → out.getD i 0 ≠ [10, 20].getD i 0 :=
  generateDerangement_correct (fun _ => 0) [10, 20] 0 (by decide) (by decide)

/-- **C2.** The generator's fixup step: when the Fisher–Yates pass leaves
exactly one fixed point at index `i`, the final index permutation is the
pass's output with the values at positions `i` and `0` swapped (positions `i`
and `1` when `i = 0`); when it leaves more than one fixed point, the value at
each fixed-point position `fixed[k]` becomes the value the pass left at
`fixed[(k+1) % L]` (a cyclic rotation of the values at exactly the
fixed-point indices) and every non-fixed position is left unchanged. -/
theorem fixup_policy (rand : Nat → Nat) (n : Nat) (_hn : 2 ≤ n) :
    (∀ i, fixedPoints (fisherYates rand n) = [i] →
      fixup (fisherYates rand n)
        = listSwap (fisherYates rand n) i (if i = 0 then 1 else 0)) ∧
    (1 < (fixedPoints (fisherYates rand n)).length →
      (∀ k, k < (fixedPoints (fisherYates rand n)).length →
        (fixup (fisherYates rand n)).getD
            ((fixedPoints (fisherYates rand n)).getD k 0) 0
          = (fisherYates rand n).getD
              ((fixedPoints (fisherYates rand n)).getD
                ((k + 1) % (fixedPoints (fisherYates rand n)).length) 0) 0) ∧
      ∀ j, j ∉ fixedPoints (fisherYates rand n) →
        (fixup (fisherYates rand n)).getD j 0 = (fisherYates rand n).getD j 0) := by
  constructor
  · intro i hfix
    have h1 : (fixedPoints (fisherYates rand n)).length = 1 := by rw [hfix]; rfl
    have hD : (fixedPoints (fisherYates rand n)).getD 0 0 = i := by rw [hfix]; rfl
    rw [fixup_eq_swap h1, hD]
  · intro hL
    constructor
    · intro k hk
      have hmem : (fixedPoints (fisherYates rand n)).getD
          ((k + 1) % (fixedPoints (fisherYates rand n)).length) 0
          ∈ fixedPoints (fisherYates rand n) :=
        getD_mem_of_lt _ _ _ (Nat.mod_lt _ (by omega))
      rw [fixup_rot_getD_mem hL hk]
      exact ((mem_fixedPoints.1 hmem).2).symm
    · intro j hj
      exact fixup_rot_getD_not_mem hL hj

theorem fixup_policy_witness :
    fixup (fisherYates (fun i => if i = 2 then 2 else 0) 3)
        = listSwap (fisherYates (fun i => if i = 2 then 2 else 0) 3) 2 0 ∧
      (fixup (fisherYates (fun i => i) 3)).getD
          ((fixedPoints (fisherYates (fun i => i) 3)).getD 0 0) 0
        = (fisherYates (fun i => i) 3).getD
            ((fixedPoints (fisherYates (fun i => i) 3)).getD
              ((0 + 1) % (fixedPoints (fisherYates (fun i => i) 3)).length) 0) 0 :=
  ⟨(fixup_policy (fun i => if i = 2 then 2 else 0) 3 (by decide)).1 2 (by decide),
    ((fixup_policy (fun i => i) 3 (by decide)).2 (by decide)).1 0 (by decide)⟩

/-! ## Data model for the workflow state machine

Records mirror the Mongoose schemas (`RecipientWish`, `Participation`,
`Mapping`, `Acknowledgement`, `User`, `GroupMember`, `Group`); ObjectIds are
modelled as `Nat`, timestamps as `Nat`, and optional schema fields as
`Option`.  A `DB` value is the persistent store; each route handler is a
function from a `DB` (plus request data) to an HTTP status code and the
resulting `DB`. -/

inductive WStatus where
  | PENDING
  | APPROVED
  | REJECTED
  deriving DecidableEq, Repr

inductive AStatus where
  | NONE
  | PENDING
  | APPROVED
  | REJECTED
  deriving DecidableEq, Repr

structure WishRec where
  id : Nat
  groupId : Nat
  userId : Nat
  wishEncrypted : Option String
  wishSetAt : Option Nat
  status : WStatus
  approvedAt : Option Nat
  approvedBy : Option Nat
  deriving DecidableEq, Repr

structure PartRec where
  groupId : Nat
  userId : Nat
  submitted : Bool
  addressEncrypted : Option String
  addressStatus : AStatus
  addressSubmittedAt : Option Nat
  addressApprovedAt : Option Nat
  addressApprovedBy : Option Nat
  deriving DecidableEq, Repr

structure MappingRec where
  eventId : String
  groupId : Nat
  santaId : Nat
  recipientId : Nat
  deriving DecidableEq, Repr

structure AckRec where
  groupId : Nat
  santaId : Nat
  recipientId : Nat
  sent : Bool
  sentAt : Nat
  deriving DecidableEq, Repr

structure UserRec where
  id : Nat
  email : Option String
  deriving DecidableEq, Repr

structure GroupMemberRec where
  groupId : Nat
  userId : Nat
  deriving DecidableEq, Repr

structure DB where
  wishes : List WishRec
  participations : List PartRec
  mappings : List MappingRec
  acks : List AckRec
  users : List UserRec
  groupMembers : List GroupMemberRec
  groups : List Nat
  deriving DecidableEq, Repr

/-- Mongo `save` on a document obtained by `findOne`/`findById`: rewrite the
first document matching the predicate, in natural order. -/
def replaceFirst {α : Type _} (p : α → Bool) (f : α → α) : List α → List α
  | [] => []
  | x :: xs => if p x then f x :: xs else x :: replaceFirst p f xs

/-- `findOneAndUpdate(filter, update, { upsert: true })`: update the first
matching document, or append a freshly created one. -/
def upsert {α : Type _} (p : α → Bool) (f : α → α) (mk : α) : List α → List α
  | [] => [mk]
  | x :: xs => if p x then f x :: xs else x :: upsert p f mk xs

/-! ## User routes (`routes/user.js`, hardened variants) -/

/-- The update document of both set-wish variants:
`{ wishEncrypted, wishSetAt: now, status: 'PENDING', approvedAt: null, approvedBy: null }`. -/
def wishUpdate (wish : String) (now : Nat) (enc : String → String) (w : WishRec) : WishRec :=
  { w with
    wishEncrypted := some (enc wish)
    wishSetAt := some now
    status := WStatus.PENDING
    approvedAt := none
    approvedBy := none }

/-- The document inserted by the set-wish upsert when no record matches:
the filter fields plus the update document. -/
def newWishRec (freshId groupId caller : Nat) (wish : String) (now : Nat)
    (enc : String → String) : WishRec :=
  { id := freshId
    groupId := groupId
    userId := caller
    wishEncrypted := some (enc wish)
    wishSetAt := some now
    status := WStatus.PENDING
    approvedAt := none
    approvedBy := none }

/-- `POST /api/user/set-wish/:groupId` (`routes/user.js`): the caller must be
a recipient in one of this group's Assignment rows (else 403); an already
`APPROVED` wish blocks the edit (403); a missing wish body is a 400;
otherwise the encrypted wish is upserted with status `PENDING` and cleared
approval metadata.  `enc` is the secret codec's `encrypt`; `freshId` is the
id Mongo would assign on insert. -/
def setWish (db : DB) (caller groupId : Nat) (wish : String) (now freshId : Nat)
    (enc : String → String) : Nat × DB :=
  match db.mappings.find? (fun m => m.groupId == groupId && m.recipientId == caller) with
  | none => (403, db)
  | some _ =>
    let existing := db.wishes.find? (fun w => w.groupId == groupId && w.userId == caller)
    if existing.any (fun w => w.status == WStatus.APPROVED) then (403, db)
    else if wish = "" then (400, db)
    else
      let newWishes :=
        upsert (fun w => w.groupId == groupId && w.userId == caller)
          (wishUpdate wish now enc)
          (newWishRec freshId groupId caller wish now enc)
          db.wishes
      (200, { db with wishes := newWishes })

/-- The older `POST /api/user/set-wish/:groupId` variant (unnamed route file,
`part_003`): identical except that it performs no already-`APPROVED` check. -/
def setWishLegacy (db : DB) (caller groupId : Nat) (wish : String) (now freshId : Nat)
    (enc : String → String) : Nat × DB :=
  match db.mappings.find? (fun m => m.groupId == groupId && m.recipientId == caller) with
  | none => (403, db)
  | some _ =>
    if wish = "" then (400, db)
    else
      let newWishes :=
        upsert (fun w => w.groupId == groupId && w.userId == caller)
          (wishUpdate wish now enc)
          (newWishRec freshId groupId caller wish now enc)
          db.wishes
      (200, { db with wishes := newWishes })

/-- `POST /api/user/acknowledge/:groupId` (`routes/user.js`): the caller must
be a santa in this group (else 403); an existing Acknowledgement for the
(group, santa, recipient) triple is rejected with 400; otherwise exactly one
new record is created. -/
def acknowledge (db : DB) (caller groupId now : Nat) : Nat × DB :=
  match db.mappings.find? (fun m => m.groupId == groupId && m.santaId == caller) with
  | none => (403, db)
  | some m =>
    match db.acks.find? (fun a => a.groupId == groupId && a.santaId == caller
        && a.recipientId == m.recipientId) with
    | some _ => (400, db)
    | none =>
      let newAck : AckRec :=
        { groupId := groupId
          santaId := caller
          recipientId := m.recipientId
          sent := true
          sentAt := now }
      (200, { db with acks := db.acks ++ [newAck] })

/-- The older `POST /api/user/acknowledge/:groupId` variant (`part_003`):
upserts the Acknowledgement, so a repeated call succeeds and refreshes
`sentAt` instead of failing. -/
def acknowledgeLegacy (db : DB) (caller groupId now : Nat) : Nat × DB :=
  match db.mappings.find? (fun m => m.groupId == groupId && m.santaId == caller) with
  | none => (403, db)
  | some m =>
    let newAcks :=
      upsert (fun a => a.groupId == groupId && a.santaId == caller
          && a.recipientId == m.recipientId)
        (fun a => { a with sentAt := now, sent := true })
        { groupId := groupId
          santaId := caller
          recipientId := m.recipientId
          sent := true
          sentAt := now }
        db.acks
    (200, { db with acks := newAcks })

/-- Response payload of a successful assignment read: only the decrypted wish
and address plus the fixed `recipientNameHidden` flag — structurally no
recipient identity. -/
structure AssignResp where
  wish : String
  address : String
  recipientNameHidden : Bool
  deriving DecidableEq, Repr

/-- `GET /api/user/my-assignment/:groupId` (`routes/user.js`): look up the
Assignment naming the caller as santa (404 if none), the paired recipient's
wish (404 unless present and `APPROVED`), and the recipient's participation
(404 unless present with `addressStatus = APPROVED`); then decrypt both
secrets (a thrown decryption, including a missing encrypted field, is the
500 path) and return only the plaintext pair.  `dec` is the secret codec's
`decrypt`, `none` modelling a throw. -/
def getAssignment (db : DB) (caller groupId : Nat) (dec : String → Option String) :
    Nat × Option AssignResp :=
  match db.mappings.find? (fun m => m.groupId == groupId && m.santaId == caller) with
  | none => (404, none)
  | some m =>
    match db.wishes.find? (fun w => w.groupId == groupId && w.userId == m.recipientId) with
    | none => (404, none)
    | some w =>
      if w.status ≠ WStatus.APPROVED then (404, none)
      else
        match db.participations.find?
            (fun p => p.groupId == groupId && p.userId == m.recipientId) with
        | none => (404, none)
        | some p =>
          if p.addressStatus ≠ AStatus.APPROVED then (404, none)
          else
            match w.wishEncrypted with
            | none => (500, none)
            | some we =>
              match dec we with
              | none => (500, none)
              | some wishPlain =>
                match p.addressEncrypted with
                | none => (500, none)
                | some ae =>
                  match dec ae with
                  | none => (500, none)
                  | some addrPlain =>
                    let resp : AssignResp :=
                      { wish := wishPlain
                        address := addrPlain
                        recipientNameHidden := true }
                    (200, some resp)

/-! ## Admin routes

The hardened admin router is the copy stored alongside the `Acknowledgement`
model (headed `// routes/admin.js`); the older copy is the unnamed route file
`part_004`. -/

/-- The approve-wish mutation: `status = 'APPROVED'; approvedAt = now;
approvedBy = adminId`. -/
def wishApprove (adminId now : Nat) (w : WishRec) : WishRec :=
  { w with
    status := WStatus.APPROVED
    approvedAt := some now
    approvedBy := some adminId }

/-- `POST /api/admin/approve-wish/:wishId` (hardened admin router): 404 when
the wish id is unknown; an already `APPROVED` wish is rejected with 400
("Wish already approved") before anything is written; otherwise the status
becomes `APPROVED` and approver identity and timestamp are stamped. -/
def approveWish (db : DB) (wishId adminId now : Nat) : Nat × DB :=
  match db.wishes.find? (fun w => w.id == wishId) with
  | none => (404, db)
  | some w =>
    if w.status = WStatus.APPROVED then (400, db)
    else
      let newWishes := replaceFirst (fun w => w.id == wishId) (wishApprove adminId now) db.wishes
      (200, { db with wishes := newWishes })

/-- The older `POST /api/admin/approve-wish/:wishId` (`part_004`): no
double-approval check — an already `APPROVED` wish is approved again,
restamping `approvedAt`/`approvedBy`, and the call reports success. -/
def approveWishLegacy (db : DB) (wishId adminId now : Nat) : Nat × DB :=
  match db.wishes.find? (fun w => w.id == wishId) with
  | none => (404, db)
  | some _ =>
    let newWishes := replaceFirst (fun w => w.id == wishId) (wishApprove adminId now) db.wishes
    (200, { db with wishes := newWishes })

/-- The approve-address mutation: `addressStatus = 'APPROVED';
addressApprovedAt = now; addressApprovedBy = adminId`. -/
def partAddressApprove (adminId now : Nat) (q : PartRec) : PartRec :=
  { q with
    addressStatus := AStatus.APPROVED
    addressApprovedAt := some now
    addressApprovedBy := some adminId }

/-- `POST /api/admin/approve-address/:groupId/:userId` (hardened admin
router): 404 when the participation or its encrypted address is missing; 400
when already `APPROVED`; otherwise stamp `addressStatus := APPROVED` with
approver and timestamp and save, then decrypt wish and address for the
outbound santa emails (a decryption throw is caught, leaving the fallback
strings) and attempt one email per assigned santa (each failure is caught
and only logged).  `dec` is the codec's `decrypt` (`none` = throw);
`sendOk e dw da` says whether `sendSantaEmail(e, dw, da)` succeeds.  Returns
the status, the resulting store, and the (email, wish, address) triples
successfully sent. -/
def approveAddress (db : DB) (groupId userId adminId now : Nat)
    (dec : String → Option String) (sendOk : String → String → String → Bool) :
    Nat × DB × List (String × String × String) :=
  match db.participations.find? (fun p => p.groupId == groupId && p.userId == userId) with
  | none => (404, db, [])
  | some p =>
    match p.addressEncrypted with
    | none => (404, db, [])
    | some addrEnc =>
      if p.addressStatus = AStatus.APPROVED then (400, db, [])
      else
        let newParts :=
          replaceFirst (fun q => q.groupId == groupId && q.userId == userId)
            (partAddressApprove adminId now) db.participations
        let db' := { db with participations := newParts }
        let mappingDocs := db.mappings.filter
          (fun m => m.groupId == groupId && m.recipientId == userId)
        let wishDoc := db.wishes.find? (fun w => w.groupId == groupId && w.userId == userId)
        let plain :=
          match wishDoc with
          | some w =>
            match w.wishEncrypted with
            | some we =>
              match dec we with
              | none => ("No wish found", "No address found")
              | some wp =>
                match dec addrEnc with
                | none => (wp, "No address found")
                | some ap => (wp, ap)
            | none =>
              match dec addrEnc with
              | none => ("No wish found", "No address found")
              | some ap => ("No wish found", ap)
          | none =>
            match dec addrEnc with
            | none => ("No wish found", "No address found")
            | some ap => ("No wish found", ap)
        let sent := mappingDocs.foldl (fun acc m =>
          match db.users.find? (fun u => u.id == m.santaId) with
          | none => acc
          | some u =>
            match u.email with
            | none => acc
            | some e => if sendOk e plain.1 plain.2 then acc ++ [(e, plain.1, plain.2)] else acc) []
        (200, db', sent)

/-- Rows the shuffle builds from the drawn derangement:
`userIds.map((santaId, index) => ({eventId, groupId, santaId, recipientId: recipients[index]}))`. -/
def mkMappings (groupId : Nat) (eventId : String) (santas recips : List Nat) :
    List MappingRec :=
  (santas.zip recips).map (fun sr =>
    { eventId := eventId
      groupId := groupId
      santaId := sr.1
      recipientId := sr.2 })

/-- `Mapping.insertMany(rows, { ordered: false })` against the unique index
`(eventId, groupId, santaId)`: rows are inserted in order, and a row whose
index key collides with an already-present one is skipped instead of
aborting the batch. -/
def insertMappings (rows : List MappingRec) (cur : List MappingRec) : List MappingRec :=
  rows.foldl (fun acc r =>
    if acc.any (fun m => m.eventId == r.eventId && m.groupId == r.groupId
        && m.santaId == r.santaId)
    then acc else acc ++ [r]) cur

/-- `POST /api/admin/shuffle/:groupId` (admin router; identical logic in both
copies): 404 for an unknown group, 400 for fewer than two joined members;
otherwise run `generateDerangement` over the member ids, delete every
Mapping row of this (group, eventId), and insert the freshly built rows. -/
def shuffle (db : DB) (groupId : Nat) (eventId : String) (rand : Nat → Nat) : Nat × DB :=
  if !(db.groups.contains groupId) then (404, db)
  else
    let members := db.groupMembers.filter (fun m => m.groupId == groupId)
    if members.length < 2 then (400, db)
    else
      let userIds := members.map (fun m => m.userId)
      match generateDerangement rand userIds 0 with
      | .error _ => (500, db)
      | .ok recipients =>
        let rows := mkMappings groupId eventId userIds recipients
        let cleared := db.mappings.filter
          (fun m => !(m.groupId == groupId && m.eventId == eventId))
        (200, { db with mappings := insertMappings rows cleared })

/-! ## Store-operation lemmas -/

theorem find?_replaceFirst {α : Type _} (p : α → Bool) (f : α → α) (l : List α) (x : α)
    (hfind : l.find? p = some x) (hpf : p (f x) = true) :
    (replaceFirst p f l).find? p = some (f x) := by
  induction l with
  | nil => cases hfind
  | cons y ys ih =>
    by_cases hy : p y = true
    · rw [List.find?_cons_of_pos _ hy] at hfind
      obtain rfl := Option.some.inj hfind
      unfold replaceFirst
      rw [if_pos hy, List.find?_cons_of_pos _ hpf]
    · rw [List.find?_cons_of_neg _ hy] at hfind
      unfold replaceFirst
      rw [if_neg hy, List.find?_cons_of_neg _ hy]
      exact ih hfind

theorem upsert_of_find?_none {α : Type _} (p : α → Bool) (f : α → α) (mk : α) (l : List α)
    (h : l.find? p = none) : upsert p f mk l = l ++ [mk] := by
  induction l with
  | nil => rfl
  | cons y ys ih =>
    by_cases hy : p y = true
    · rw [List.find?_cons_of_pos _ hy] at h
      cases h
    · rw [List.find?_cons_of_neg _ hy] at h
      unfold upsert
      rw [if_neg hy, ih h, List.cons_append]

theorem upsert_of_find?_some {α : Type _} (p : α → Bool) (f : α → α) (mk : α) (l : List α)
    (x : α) (h : l.find? p = some x) : upsert p f mk l = replaceFirst p f l := by
  induction l with
  | nil => cases h
  | cons y ys ih =>
    by_cases hy : p y = true
    · unfold upsert replaceFirst
      rw [if_pos hy, if_pos hy]
    · rw [List.find?_cons_of_neg _ hy] at h
      unfold upsert replaceFirst
      rw [if_neg hy, if_neg hy, ih h]

theorem find?_append_singleton_of_none {α : Type _} (p : α → Bool) (l : List α) (mk : α)
    (h : l.find? p = none) (hmk : p mk = true) : (l ++ [mk]).find? p = some mk := by
  rw [List.find?_append, h, Option.none_or, List.find?_cons_of_pos _ hmk]

/-- **C3 (amended).** `POST /api/user/set-wish/:groupId` for a caller who is a
recipient in the group's Assignment and submits a non-empty wish: when the
stored wish record is absent or still `PENDING`, the call succeeds and
overwrites the stored encrypted wish, setting status `PENDING` and clearing
`approvedAt`/`approvedBy`; when the record is already `APPROVED`, the
hardened handler in `routes/user.js` fails — with HTTP 403, not a 409
conflict — and leaves the store completely unchanged.  (The `part_003`
variant lacks the `APPROVED` guard; see the accompanying counterexample.) -/
theorem setWish_spec (db : DB) (caller groupId : Nat) (wish : String) (now freshId : Nat)
    (enc : String → String) (m : MappingRec)
    (hm : db.mappings.find? (fun m => m.groupId == groupId && m.recipientId == caller)
      = some m)
    (hwish : wish ≠ "") :
    (∀ w, db.wishes.find? (fun w => w.groupId == groupId && w.userId == caller) = some w →
      w.status = WStatus.APPROVED →
      setWish db caller groupId wish now freshId enc = (403, db)) ∧
    ((db.wishes.find? (fun w => w.groupId == groupId && w.userId == caller) = none ∨
      ∃ w, db.wishes.find? (fun w => w.groupId == groupId && w.userId == caller) = some w ∧
        w.status = WStatus.PENDING) →
      ∃ db2, setWish db caller groupId wish now freshId enc = (200, db2) ∧
        (∃ rec, db2.wishes.find? (fun w => w.groupId == groupId && w.userId == caller)
            = some rec ∧
          rec.groupId = groupId ∧ rec.userId = caller ∧
          rec.wishEncrypted = some (enc wish) ∧ rec.wishSetAt = some now ∧
          rec.status = WStatus.PENDING ∧ rec.approvedAt = none ∧ rec.approvedBy = none) ∧
        db2.participations = db.participations ∧ db2.mappings = db.mappings ∧
        db2.acks = db.acks) := by
  constructor
  · intro w hw hap
    simp only [setWish, hm, hw]
    rw [if_pos (by simp [Option.any, hap])]
  · intro hcase
    rcases hcase with hnone | ⟨w, hw, hpend⟩
    · have heq : setWish db caller groupId wish now freshId enc
          = (200, { db with wishes := db.wishes ++ [newWishRec freshId groupId caller wish now enc] }) := by
        simp only [setWish, hm, hnone]
        rw [if_neg (by simp [Option.any]), if_neg hwish,
          upsert_of_find?_none _ _ _ _ hnone]
      refine ⟨_, heq, ?_, rfl, rfl, rfl⟩
      refine ⟨_, find?_append_singleton_of_none _ _ _ hnone (by simp [newWishRec]), ?_⟩
      exact ⟨rfl, rfl, rfl, rfl, rfl, rfl, rfl⟩
    · have hcond : ¬((some w).any (fun w => w.status == WStatus.APPROVED) = true) := by
        simp [Option.any, hpend]
      have hpw := List.find?_some hw
      simp only [Bool.and_eq_true, beq_iff_eq] at hpw
      have heq : setWish db caller groupId wish now freshId enc
          = (200, { db with wishes := replaceFirst (fun w => w.groupId == groupId && w.userId == caller) (wishUpdate wish now enc) db.wishes }) := by
        simp only [setWish, hm, hw]
        rw [if_neg hcond, if_neg hwish, upsert_of_find?_some _ _ _ _ _ hw]
      refine ⟨_, heq, ?_, rfl, rfl, rfl⟩
      refine ⟨_, find?_replaceFirst _ _ _ _ hw (by simp [wishUpdate, hpw.1, hpw.2]), ?_⟩
      exact ⟨by simp [wishUpdate, hpw.1], by simp [wishUpdate, hpw.2],
        rfl, rfl, rfl, rfl, rfl⟩

/-- Fixture for the C3 witness: group 1 whose Assignment makes user 2 a
recipient (santa 3), with user 2's wish already `APPROVED` by admin 9. -/
def dbW3 : DB :=
  { wishes := [⟨5, 1, 2, some "o", some 1, WStatus.APPROVED, some 2, some 9⟩]
    participations := []
    mappings := [⟨"default", 1, 3, 2⟩]
    acks := []
    users := []
    groupMembers := []
    groups := [1] }

theorem setWish_spec_witness :
    setWish dbW3 2 1 "g" 7 8 (fun s => s) = (403, dbW3) :=
  (setWish_spec dbW3 2 1 "g" 7 8 (fun s => s) ⟨"default", 1, 3, 2⟩ rfl
    (by decide)).1 ⟨5, 1, 2, some "o", some 1, WStatus.APPROVED, some 2, some 9⟩ rfl rfl

/-- Fixture for the C3 counterexample: same shape as `dbW3`. -/
def dbX3 : DB :=
  { wishes := [⟨5, 1, 2, some "o", some 1, WStatus.APPROVED, some 2, some 9⟩]
    participations := []
    mappings := [⟨"default", 1, 3, 2⟩]
    acks := []
    users := []
    groupMembers := []
    groups := [1] }

/-- **C3 counterexample.** In the `part_003` set-wish handler (one of the two
cited implementations of submitWish), a submission against an `APPROVED`
record does not fail with a conflict: it succeeds (200) and overwrites the
record back to `PENDING`. -/
theorem setWishLegacy_overwrites_approved :
    (setWishLegacy dbX3 2 1 "g" 7 8 (fun s => s)).1 = 200 ∧
      ((setWishLegacy dbX3 2 1 "g" 7 8 (fun s => s)).2.wishes.find?
          (fun w => w.groupId == 1 && w.userId == 2)).map WishRec.status
        = some WStatus.PENDING ∧
      (dbX3.wishes.find? (fun w => w.groupId == 1 && w.userId == 2)).map WishRec.status
        = some WStatus.APPROVED := by
  decide

/-- **C4 (amended).** `POST /api/admin/approve-wish/:wishId` in the hardened
admin router: approving an already-`APPROVED` wish is a hard error — HTTP
400 ("Wish already approved"), not a 409 conflict — and leaves the store
unchanged; approving a `PENDING` wish sets `APPROVED` and stamps
`approvedAt` and the approver identity.  (The `part_004` variant performs no
such check; see the accompanying counterexample.) -/
theorem approveWish_spec (db : DB) (wishId adminId now : Nat) :
    (∀ w, db.wishes.find? (fun w => w.id == wishId) = some w →
      w.status = WStatus.APPROVED → approveWish db wishId adminId now = (400, db)) ∧
    (∀ w, db.wishes.find? (fun w => w.id == wishId) = some w →
      w.status = WStatus.PENDING →
      ∃ db2, approveWish db wishId adminId now = (200, db2) ∧
        db2.wishes.find? (fun w => w.id == wishId) = some (wishApprove adminId now w) ∧
        (wishApprove adminId now w).status = WStatus.APPROVED ∧
        (wishApprove adminId now w).approvedAt = some now ∧
        (wishApprove adminId now w).approvedBy = some adminId ∧
        db2.participations = db.participations ∧ db2.mappings = db.mappings ∧
        db2.acks = db.acks) := by
  constructor
  · intro w hw hap
    simp only [approveWish, hw]
    rw [if_pos hap]
  · intro w hw hpend
    have hpw := List.find?_some hw
    have heq : approveWish db wishId adminId now
        = (200, { db with wishes := replaceFirst (fun w => w.id == wishId) (wishApprove adminId now) db.wishes }) := by
      simp only [approveWish, hw]
      rw [if_neg (by simp [hpend])]
    refine ⟨_, heq, ?_, rfl, rfl, rfl, rfl, rfl, rfl⟩
    exact find?_replaceFirst _ _ _ _ hw (by simpa [wishApprove] using hpw)

/-- Fixture for the C4 witness: wish 1 of user 2 in group 1 is `PENDING`. -/
def dbW4 : DB :=
  { wishes := [⟨1, 1, 2, some "o", some 1, WStatus.PENDING, none, none⟩]
    participations := []
    mappings := []
    acks := []
    users := []
    groupMembers := []
    groups := [1] }

theorem approveWish_spec_witness :
    ∃ db2, approveWish dbW4 1 9 5 = (200, db2) ∧
      db2.wishes.find? (fun w => w.id == 1)
        = some (wishApprove 9 5 ⟨1, 1, 2, some "o", some 1, WStatus.PENDING, none, none⟩) ∧
      (wishApprove 9 5 ⟨1, 1, 2, some "o", some 1, WStatus.PENDING, none, none⟩).status
        = WStatus.APPROVED ∧
      (wishApprove 9 5 ⟨1, 1, 2, some "o", some 1, WStatus.PENDING, none, none⟩).approvedAt
        = some 5 ∧
      (wishApprove 9 5 ⟨1, 1, 2, some "o", some 1, WStatus.PENDING, none, none⟩).approvedBy
        = some 9 ∧
      db2.participations = dbW4.participations ∧ db2.mappings = dbW4.mappings ∧
      db2.acks = dbW4.acks :=
  (approveWish_spec dbW4 1 9 5).2
    ⟨1, 1, 2, some "o", some 1, WStatus.PENDING, none, none⟩ rfl rfl

/-- Fixture for the C4 counterexample: wish 1 is already `APPROVED`,
stamped by admin 7. -/
def dbX4 : DB :=
  { wishes := [⟨1, 1, 2, some "o", some 1, WStatus.APPROVED, some 2, some 7⟩]
    participations := []
    mappings := []
    acks := []
    users := []
    groupMembers := []
    groups := [1] }

/-- **C4 counterexample.** In the `part_004` approve-wish handler (one of the
two cited implementations), approving an already-`APPROVED` wish is not an
error at all: the call reports success (200) and silently restamps
`approvedAt`/`approvedBy` (here from admin 7 to admin 9). -/
theorem approveWishLegacy_silent_reapproval :
    (approveWishLegacy dbX4 1 9 5).1 = 200 ∧
      ((approveWishLegacy dbX4 1 9 5).2.wishes.find? (fun w => w.id == 1)).map
          WishRec.approvedBy = some (some 9) ∧
      (dbX4.wishes.find? (fun w => w.id == 1)).map WishRec.status
        = some WStatus.APPROVED ∧
      (dbX4.wishes.find? (fun w => w.id == 1)).map WishRec.approvedBy
        = some (some 7) := by
  decide

/-- **C5 (amended).** `POST /api/user/acknowledge/:groupId` in
`routes/user.js` for a caller who is santa in the group's Assignment: when
no Acknowledgement exists for the (group, santa, recipient) triple, the call
creates exactly one record for that triple; when one already exists, the
call fails — HTTP 400 ("Gift already acknowledged"), not a 409 conflict —
and the store is left completely unchanged.  (The `part_003` variant
upserts instead; see the accompanying counterexample.) -/
theorem acknowledge_spec (db : DB) (caller groupId now : Nat) (m : MappingRec)
    (hm : db.mappings.find? (fun m => m.groupId == groupId && m.santaId == caller)
      = some m) :
    (db.acks.find? (fun a => a.groupId == groupId && a.santaId == caller
        && a.recipientId == m.recipientId) = none →
      acknowledge db caller groupId now
        = (200, { db with acks := db.acks ++ [⟨groupId, caller, m.recipientId, true, now⟩] })) ∧
    (∀ a, db.acks.find? (fun a => a.groupId == groupId && a.santaId == caller
        && a.recipientId == m.recipientId) = some a →
      acknowledge db caller groupId now = (400, db)) := by
  constructor
  · intro hnone
    simp only [acknowledge, hm, hnone]
  · intro a ha
    simp only [acknowledge, hm, ha]

/-- Fixture for the C5 witness: group 1, user 2 is santa for recipient 3,
no Acknowledgement yet. -/
def dbW5 : DB :=
  { wishes := []
    participations := []
    mappings := [⟨"default", 1, 2, 3⟩]
    acks := []
    users := []
    groupMembers := []
    groups := [1] }

theorem acknowledge_spec_witness :
    acknowledge dbW5 2 1 9
        = (200, { dbW5 with acks := dbW5.acks ++ [⟨1, 2, 3, true, 9⟩] }) ∧
      acknowledge { dbW5 with acks := dbW5.acks ++ [⟨1, 2, 3, true, 9⟩] } 2 1 11
        = (400, { dbW5 with acks := dbW5.acks ++ [⟨1, 2, 3, true, 9⟩] }) :=
  ⟨(acknowledge_spec dbW5 2 1 9 ⟨"default", 1, 2, 3⟩ rfl).1 rfl,
    (acknowledge_spec { dbW5 with acks := dbW5.acks ++ [⟨1, 2, 3, true, 9⟩] } 2 1 11
      ⟨"default", 1, 2, 3⟩ rfl).2 ⟨1, 2, 3, true, 9⟩ rfl⟩

/-- Fixture for the C5 counterexample: as `dbW5`, but an Acknowledgement for
the (1, 2, 3) triple already exists with `sentAt = 4`. -/
def dbX5 : DB :=
  { wishes := []
    participations := []
    mappings := [⟨"default", 1, 2, 3⟩]
    acks := [⟨1, 2, 3, true, 4⟩]
    users := []
    groupMembers := []
    groups := [1] }

/-- **C5 counterexample.** In the `part_003` acknowledge handler (one of the
two cited implementations), a repeated acknowledgement for the same
(group, santa, recipient) triple does not fail: it succeeds (200) and
modifies the existing record, refreshing `sentAt` from 4 to 9 (no new
record is created). -/
theorem acknowledgeLegacy_second_call_succeeds :
    (acknowledgeLegacy dbX5 2 1 9).1 = 200 ∧
      ((acknowledgeLegacy dbX5 2 1 9).2.acks.find? (fun a => a.groupId == 1
          && a.santaId == 2 && a.recipientId == 3)).map AckRec.sentAt = some 9 ∧
      (dbX5.acks.find? (fun a => a.groupId == 1 && a.santaId == 2
          && a.recipientId == 3)).map AckRec.sentAt = some 4 ∧
      (acknowledgeLegacy dbX5 2 1 9).2.acks.length = dbX5.acks.length := by
  decide

/-- **C10.** The acknowledge operation only ever extends the Acknowledgement
collection by a record whose (group, santa, recipient) triple agrees with a
Mapping row that exists at creation time and names the caller as santa in
the request's group: any call either leaves the collection unchanged or
appends exactly one such record. -/
theorem acknowledge_matches_mapping (db : DB) (caller groupId now : Nat) :
    ∀ st db2, acknowledge db caller groupId now = (st, db2) →
      db2.acks = db.acks ∨
      ∃ a mp, db2.acks = db.acks ++ [a] ∧ mp ∈ db.mappings ∧
        a.groupId = groupId ∧ a.santaId = caller ∧
        mp.groupId = groupId ∧ mp.santaId = caller ∧
        a.recipientId = mp.recipientId := by
  intro st db2 h
  cases hm : db.mappings.find?
      (fun m => m.groupId == groupId && m.santaId == caller) with
  | none =>
    simp only [acknowledge, hm] at h
    cases h
    left
    rfl
  | some m =>
    have hmem := List.mem_of_find?_eq_some hm
    have hpm := List.find?_some hm
    simp only [Bool.and_eq_true, beq_iff_eq] at hpm
    cases ha : db.acks.find? (fun a => a.groupId == groupId && a.santaId == caller
        && a.recipientId == m.recipientId) with
    | some a =>
      simp only [acknowledge, hm, ha] at h
      cases h
      left
      rfl
    | none =>
      simp only [acknowledge, hm, ha] at h
      cases h
      right
      exact ⟨⟨groupId, caller, m.recipientId, true, now⟩, m, rfl, hmem,
        rfl, rfl, hpm.1, hpm.2, rfl⟩

/-- Fixture for the C10 witness: same shape as `dbW5`. -/
def dbW10 : DB :=
  { wishes := []
    participations := []
    mappings := [⟨"default", 1, 2, 3⟩]
    acks := []
    users := []
    groupMembers := []
    groups := [1] }

theorem acknowledge_matches_mapping_witness :
    (acknowledge dbW10 2 1 9).2.acks = dbW10.acks ∨
      ∃ a mp, (acknowledge dbW10 2 1 9).2.acks = dbW10.acks ++ [a] ∧
        mp ∈ dbW10.mappings ∧
        a.groupId = 1 ∧ a.santaId = 2 ∧ mp.groupId = 1 ∧ mp.santaId = 2 ∧
        a.recipientId = mp.recipientId :=
  acknowledge_matches_mapping dbW10 2 1 9 (acknowledge dbW10 2 1 9).1
    (acknowledge dbW10 2 1 9).2 rfl

/-- **C6.** `GET /api/user/my-assignment/:groupId` returns a payload only
when an Assignment row names the caller as santa, the paired recipient's
wish exists with status `APPROVED`, and the recipient's participation exists
with `addressStatus = APPROVED` (and both secrets decrypt); the payload is
exactly the two decrypted strings plus the `recipientNameHidden` flag —
the `AssignResp` type has no identity field, so the response never contains
the recipient's identity.  Whenever any of the three conditions fails, the
call fails with 404 and no payload. -/
theorem getAssignment_spec (db : DB) (caller groupId : Nat) (dec : String → Option String) :
    (∀ st r, getAssignment db caller groupId dec = (st, some r) →
      st = 200 ∧ r.recipientNameHidden = true ∧
      ∃ mp, db.mappings.find? (fun m => m.groupId == groupId && m.santaId == caller)
          = some mp ∧
        ∃ w, db.wishes.find? (fun w => w.groupId == groupId && w.userId == mp.recipientId)
            = some w ∧ w.status = WStatus.APPROVED ∧
          ∃ p, db.participations.find?
              (fun p => p.groupId == groupId && p.userId == mp.recipientId) = some p ∧
            p.addressStatus = AStatus.APPROVED ∧
            ∃ we ae, w.wishEncrypted = some we ∧ p.addressEncrypted = some ae ∧
              dec we = some r.wish ∧ dec ae = some r.address) ∧
    (db.mappings.find? (fun m => m.groupId == groupId && m.santaId == caller) = none →
      getAssignment db caller groupId dec = (404, none)) ∧
    (∀ mp, db.mappings.find? (fun m => m.groupId == groupId && m.santaId == caller)
        = some mp →
      (db.wishes.find? (fun w => w.groupId == groupId && w.userId == mp.recipientId)
          = none ∨
        ∃ w, db.wishes.find? (fun w => w.groupId == groupId && w.userId == mp.recipientId)
            = some w ∧ w.status ≠ WStatus.APPROVED) →
      getAssignment db caller groupId dec = (404, none)) ∧
    (∀ mp w, db.mappings.find? (fun m => m.groupId == groupId && m.santaId == caller)
        = some mp →
      db.wishes.find? (fun w => w.groupId == groupId && w.userId == mp.recipientId)
        = some w →
      w.status = WStatus.APPROVED →
      (db.participations.find?
          (fun p => p.groupId == groupId && p.userId == mp.recipientId) = none ∨
        ∃ p, db.participations.find?
            (fun p => p.groupId == groupId && p.userId == mp.recipientId) = some p ∧
          p.addressStatus ≠ AStatus.APPROVED) →
      getAssignment db caller groupId dec = (404, none)) := by
  refine ⟨?_, ?_, ?_, ?_⟩
  · intro st r h
    cases hm : db.mappings.find? (fun m => m.groupId == groupId && m.santaId == caller) with
    | none =>
      simp only [getAssignment, hm] at h
      simp at h
    | some mp =>
      cases hw : db.wishes.find?
          (fun w => w.groupId == groupId && w.userId == mp.recipientId) with
      | none =>
        simp only [getAssignment, hm, hw] at h
        simp at h
      | some w =>
        by_cases hws : w.status = WStatus.APPROVED
        · cases hp : db.participations.find?
              (fun p => p.groupId == groupId && p.userId == mp.recipientId) with
          | none =>
            simp only [getAssignment, hm, hw, hp] at h
            rw [if_neg (by simp [hws])] at h
            simp at h
          | some p =>
            by_cases hps : p.addressStatus = AStatus.APPROVED
            · cases hwe : w.wishEncrypted with
              | none =>
                simp only [getAssignment, hm, hw, hp, hwe] at h
                rw [if_neg (by simp [hws]), if_neg (by simp [hps])] at h
                simp at h
              | some we =>
                cases hdw : dec we with
                | none =>
                  simp only [getAssignment, hm, hw, hp, hwe, hdw] at h
                  rw [if_neg (by simp [hws]), if_neg (by simp [hps])] at h
                  simp at h
                | some wp =>
                  cases hae : p.addressEncrypted with
                  | none =>
                    simp only [getAssignment, hm, hw, hp, hwe, hdw, hae] at h
                    rw [if_neg (by simp [hws]), if_neg (by simp [hps])] at h
                    simp at h
                  | some ae =>
                    cases hda : dec ae with
                    | none =>
                      simp only [getAssignment, hm, hw, hp, hwe, hdw, hae, hda] at h
                      rw [if_neg (by simp [hws]), if_neg (by simp [hps])] at h
                      simp at h
                    | some ap =>
                      simp only [getAssignment, hm, hw, hp, hwe, hdw, hae, hda] at h
                      rw [if_neg (by simp [hws]), if_neg (by simp [hps])] at h
                      rw [Prod.mk.injEq] at h
                      obtain ⟨h1, h2⟩ := h
                      obtain rfl := Option.some.inj h2
                      exact ⟨h1.symm, rfl, mp, rfl, w, hw, hws, p, hp, hps,
                        we, ae, hwe, hae, hdw, hda⟩
            · simp only [getAssignment, hm, hw, hp] at h
              rw [if_neg (by simp [hws]), if_pos (by simp [hps])] at h
              simp at h
        · simp only [getAssignment, hm, hw] at h
          rw [if_pos (by simp [hws])] at h
          simp at h
  · intro hm
    simp only [getAssignment, hm]
  · intro mp hm hcase
    rcases hcase with hw | ⟨w, hw, hws⟩
    · simp only [getAssignment, hm, hw]
    · simp only [getAssignment, hm, hw]
      rw [if_pos (by simp [hws])]
  · intro mp w hm hw hws hcase
    rcases hcase with hp | ⟨p, hp, hps⟩
    · simp only [getAssignment, hm, hw, hp]
      rw [if_neg (by simp [hws])]
    · simp only [getAssignment, hm, hw, hp]
      rw [if_neg (by simp [hws]), if_pos (by simp [hps])]

/-- Fixture for the C6 witness: caller 2 is santa for recipient 3 in group 1;
the recipient's wish and address are both `APPROVED`. -/
def dbW6 : DB :=
  { wishes := [⟨5, 1, 3, some "w", some 1, WStatus.APPROVED, some 2, some 9⟩]
    participations := [⟨1, 3, true, some "a", AStatus.APPROVED, some 1, some 2, some 9⟩]
    mappings := [⟨"default", 1, 2, 3⟩]
    acks := []
    users := []
    groupMembers := []
    groups := [1] }

theorem getAssignment_spec_witness :
    (200 : Nat) = 200 ∧ true = true ∧
      ∃ mp, dbW6.mappings.find? (fun m => m.groupId == 1 && m.santaId == 2) = some mp ∧
        ∃ w, dbW6.wishes.find? (fun w => w.groupId == 1 && w.userId == mp.recipientId)
            = some w ∧ w.status = WStatus.APPROVED ∧
          ∃ p, dbW6.participations.find?
              (fun p => p.groupId == 1 && p.userId == mp.recipientId) = some p ∧
            p.addressStatus = AStatus.APPROVED ∧
            ∃ we ae, w.wishEncrypted = some we ∧ p.addressEncrypted = some ae ∧
              some we = some "w" ∧ some ae = some "a" :=
  (getAssignment_spec dbW6 2 1 (fun s => some s)).1 200 ⟨"w", "a", true⟩ rfl

theorem length_fyLoop (rand : Nat → Nat) :
    ∀ (i : Nat) (p : List Nat), (fyLoop rand i p).length = p.length
  | 0, _ => rfl
  | i + 1, p =>
    (length_fyLoop rand i _).trans (length_listSwap p (i + 1) (rand (i + 1) % (i + 2)))

theorem length_fisherYates (rand : Nat → Nat) (n : Nat) :
    (fisherYates rand n).length = n :=
  (length_fyLoop rand (n - 1) _).trans (List.length_range n)

theorem generateDerangement_ok {α : Type _} (rand : Nat → Nat) (arr : List α) (d : α)
    (hn : 2 ≤ arr.length) :
    generateDerangement rand arr d
      = .ok ((fixup (fisherYates rand arr.length)).map (fun idx => arr.getD idx d)) := by
  simp only [generateDerangement]
  rw [if_neg (by omega)]

theorem insertMappings_append (rows : List MappingRec) :
    ∀ cur : List MappingRec,
      (∀ m ∈ cur, ∀ r ∈ rows,
        ¬(m.eventId = r.eventId ∧ m.groupId = r.groupId ∧ m.santaId = r.santaId)) →
      rows.Pairwise (fun r1 r2 =>
        ¬(r1.eventId = r2.eventId ∧ r1.groupId = r2.groupId ∧ r1.santaId = r2.santaId)) →
      insertMappings rows cur = cur ++ rows := by
  induction rows with
  | nil =>
    intro cur _ _
    simp [insertMappings]
  | cons r rest ih =>
    intro cur hconf hpair
    obtain ⟨hr, hrest⟩ := List.pairwise_cons.1 hpair
    have hany : ¬(cur.any (fun m => m.eventId == r.eventId && m.groupId == r.groupId
        && m.santaId == r.santaId) = true) := by
      intro hc
      obtain ⟨m, hmem, hm⟩ := List.any_eq_true.1 hc
      simp only [Bool.and_eq_true, beq_iff_eq] at hm
      exact hconf m hmem r (List.mem_cons_self _ _) ⟨hm.1.1, hm.1.2, hm.2⟩
    have hconf2 : ∀ m ∈ cur ++ [r], ∀ r2 ∈ rest,
        ¬(m.eventId = r2.eventId ∧ m.groupId = r2.groupId ∧ m.santaId = r2.santaId) := by
      intro m hmem r2 hr2
      rcases List.mem_append.1 hmem with hmc | hmr
      · exact hconf m hmc r2 (List.mem_cons_of_mem _ hr2)
      · rw [List.mem_singleton] at hmr
        subst hmr
        exact hr r2 hr2
    show (r :: rest).foldl _ cur = cur ++ (r :: rest)
    rw [List.foldl_cons]
    simp only [if_neg hany]
    have := ih (cur ++ [r]) hconf2 hrest
    rw [show rest.foldl _ (cur ++ [r]) = insertMappings rest (cur ++ [r]) from rfl, this,
      List.append_assoc, List.singleton_append]

/-- **C7.** After a shuffle of a group for an eventId completes, the stored
Mapping rows for that (group, eventId) are exactly the freshly generated
santa-to-recipient rows built from this run's derangement draw, and the
Mapping rows of every other (group, eventId) — as well as all wishes,
participations and acknowledgements — are unchanged. -/
theorem shuffle_replaces_mappings (db : DB) (groupId : Nat) (eventId : String)
    (rand : Nat → Nat)
    (hg : db.groups.contains groupId = true)
    (hlen : 2 ≤ (db.groupMembers.filter (fun m => m.groupId == groupId)).length)
    (hnd : ((db.groupMembers.filter (fun m => m.groupId == groupId)).map
      (fun m => m.userId)).Nodup) :
    ∃ recipients db2,
      generateDerangement rand
          ((db.groupMembers.filter (fun m => m.groupId == groupId)).map (fun m => m.userId))
          0
        = .ok recipients ∧
      shuffle db groupId eventId rand = (200, db2) ∧
      db2.mappings.filter (fun m => m.groupId == groupId && m.eventId == eventId)
        = mkMappings groupId eventId
            ((db.groupMembers.filter (fun m => m.groupId == groupId)).map (fun m => m.userId))
            recipients ∧
      db2.mappings.filter (fun m => !(m.groupId == groupId && m.eventId == eventId))
        = db.mappings.filter (fun m => !(m.groupId == groupId && m.eventId == eventId)) ∧
      db2.wishes = db.wishes ∧ db2.participations = db.participations ∧
      db2.acks = db.acks := by
  set members := db.groupMembers.filter (fun m => m.groupId == groupId) with hmembers
  set userIds := members.map (fun m => m.userId) with huserIds
  have hulen : userIds.length = members.length := List.length_map _ _
  have hulen2 : 2 ≤ userIds.length := by omega
  set recipients := (fixup (fisherYates rand userIds.length)).map
    (fun idx => userIds.getD idx 0) with hrecipients
  have hgen : generateDerangement rand userIds 0 = .ok recipients :=
    generateDerangement_ok rand userIds 0 hulen2
  have hreclen : recipients.length = userIds.length := by
    rw [hrecipients, List.length_map, length_fixup, length_fisherYates]
  set rows := mkMappings groupId eventId userIds recipients with hrows
  set cleared := db.mappings.filter
    (fun m => !(m.groupId == groupId && m.eventId == eventId)) with hcleared
  have hrowkey : ∀ r ∈ rows, r.groupId = groupId ∧ r.eventId = eventId := by
    intro r hrmem
    rw [hrows, mkMappings] at hrmem
    obtain ⟨sr, _, hsr⟩ := List.mem_map.1 hrmem
    rw [← hsr]
    exact ⟨rfl, rfl⟩
  have hclearkey : ∀ m ∈ cleared, ¬(m.groupId = groupId ∧ m.eventId = eventId) := by
    intro m hmem hc
    have := (List.mem_filter.1 hmem).2
    simp only [Bool.not_eq_true', Bool.and_eq_false_iff, beq_eq_false_iff_ne] at this
    rcases this with h | h
    · exact h hc.1
    · exact h hc.2
  have hconf : ∀ m ∈ cleared, ∀ r ∈ rows,
      ¬(m.eventId = r.eventId ∧ m.groupId = r.groupId ∧ m.santaId = r.santaId) := by
    intro m hmem r hrmem hc
    obtain ⟨hrg, hre⟩ := hrowkey r hrmem
    exact hclearkey m hmem ⟨hc.2.1.trans hrg, hc.1.trans hre⟩
  have hpair : rows.Pairwise (fun r1 r2 =>
      ¬(r1.eventId = r2.eventId ∧ r1.groupId = r2.groupId ∧ r1.santaId = r2.santaId)) := by
    rw [hrows, mkMappings, List.pairwise_map]
    have hfst : (List.map Prod.fst (userIds.zip recipients)).Nodup := by
      rw [List.map_fst_zip userIds recipients (by omega)]
      exact hnd
    have hfst2 : List.Pairwise (fun x y => x ≠ y)
        (List.map Prod.fst (userIds.zip recipients)) := hfst
    rw [List.pairwise_map] at hfst2
    exact hfst2.imp (fun hne hc => hne hc.2.2)
  have hins : insertMappings rows cleared = cleared ++ rows :=
    insertMappings_append rows cleared hconf hpair
  have heq : shuffle db groupId eventId rand
      = (200, { db with mappings := insertMappings rows cleared }) := by
    simp only [shuffle]
    rw [if_neg (by rw [hg]; simp), ← hmembers, if_neg (by omega), ← huserIds, hgen]
  refine ⟨recipients, _, hgen, heq, ?_, ?_, rfl, rfl, rfl⟩
  · show (insertMappings rows cleared).filter _ = _
    rw [hins, List.filter_append]
    have h1 : cleared.filter (fun m => m.groupId == groupId && m.eventId == eventId)
        = [] := by
      rw [List.filter_eq_nil_iff]
      intro m hmem hc
      simp only [Bool.and_eq_true, beq_iff_eq] at hc
      exact hclearkey m hmem hc
    have h2 : rows.filter (fun m => m.groupId == groupId && m.eventId == eventId)
        = rows := by
      rw [List.filter_eq_self]
      intro r hrmem
      obtain ⟨h3, h4⟩ := hrowkey r hrmem
      simp [h3, h4]
    rw [h1, h2, List.nil_append]
  · show (insertMappings rows cleared).filter _ = cleared
    rw [hins, List.filter_append]
    have h1 : cleared.filter (fun m => !(m.groupId == groupId && m.eventId == eventId))
        = cleared := by
      rw [List.filter_eq_self]
      intro m hmem
      exact (List.mem_filter.1 hmem).2
    have h2 : rows.filter (fun m => !(m.groupId == groupId && m.eventId == eventId))
        = [] := by
      rw [List.filter_eq_nil_iff]
      intro r hrmem hc
      obtain ⟨h3, h4⟩ := hrowkey r hrmem
      simp [h3, h4] at hc
    rw [h1, h2, List.append_nil]

/-- Fixture for the C7 witness: group 1 has two joined members (2 and 3); an
unrelated Mapping row for group 2 is present to exercise the frame
condition. -/
def dbW7 : DB :=
  { wishes := []
    participations := []
    mappings := [⟨"other", 2, 7, 8⟩]
    acks := []
    users := []
    groupMembers := [⟨1, 2⟩, ⟨1, 3⟩]
    groups := [1] }

theorem shuffle_replaces_mappings_witness :
    ∃ recipients db2,
      generateDerangement (fun _ => 0)
          ((dbW7.groupMembers.filter (fun m => m.groupId == 1)).map (fun m => m.userId)) 0
        = .ok recipients ∧
      shuffle dbW7 1 "default" (fun _ => 0) = (200, db2) ∧
      db2.mappings.filter (fun m => m.groupId == 1 && m.eventId == "default")
        = mkMappings 1 "default"
            ((dbW7.groupMembers.filter (fun m => m.groupId == 1)).map (fun m => m.userId))
            recipients ∧
      db2.mappings.filter (fun m => !(m.groupId == 1 && m.eventId == "default"))
        = dbW7.mappings.filter (fun m => !(m.groupId == 1 && m.eventId == "default")) ∧
      db2.wishes = dbW7.wishes ∧ db2.participations = dbW7.participations ∧
      db2.acks = dbW7.acks :=
  shuffle_replaces_mappings dbW7 1 "default" (fun _ => 0) (by decide) (by decide) (by decide)

/-- **C8.** Once approve-address has found the participation with a stored
encrypted address and a not-yet-approved status, the approval itself — the
stamped `addressStatus = APPROVED` store update — and the reported success
(200) hold for every decryption outcome `dec` and every email outcome
`sendOk`: a failing decryption or failing email sends do not roll the
approval back or change the response. -/
theorem approveAddress_durable (db : DB) (groupId userId adminId now : Nat) (p : PartRec)
    (hp : db.participations.find? (fun q => q.groupId == groupId && q.userId == userId)
      = some p)
    (ae : String) (hae : p.addressEncrypted = some ae)
    (hstat : p.addressStatus ≠ AStatus.APPROVED) :
    ∀ (dec : String → Option String) (sendOk : String → String → String → Bool),
      (approveAddress db groupId userId adminId now dec sendOk).1 = 200 ∧
      (approveAddress db groupId userId adminId now dec sendOk).2.1
        = { db with participations := replaceFirst (fun q => q.groupId == groupId && q.userId == userId) (partAddressApprove adminId now) db.participations } ∧
      (replaceFirst (fun q => q.groupId == groupId && q.userId == userId) (partAddressApprove adminId now) db.participations).find? (fun q => q.groupId == groupId && q.userId == userId)
        = some (partAddressApprove adminId now p) ∧
      (partAddressApprove adminId now p).addressStatus = AStatus.APPROVED ∧
      (partAddressApprove adminId now p).addressApprovedAt = some now ∧
      (partAddressApprove adminId now p).addressApprovedBy = some adminId := by
  intro dec sendOk
  have hpq := List.find?_some hp
  refine ⟨?_, ?_, ?_, rfl, rfl, rfl⟩
  · simp only [approveAddress, hp, hae]
    rw [if_neg hstat]
  · simp only [approveAddress, hp, hae]
    rw [if_neg hstat]
  · exact find?_replaceFirst _ _ _ _ hp (by simpa [partAddressApprove] using hpq)

/-- Fixture for the C8 witness: user 2's address in group 1 is `PENDING`
with stored ciphertext; user 4 is their assigned santa and has an email. -/
def dbW8 : DB :=
  { wishes := [⟨5, 1, 2, some "w", some 1, WStatus.APPROVED, some 2, some 9⟩]
    participations := [⟨1, 2, true, some "a", AStatus.PENDING, some 1, none, none⟩]
    mappings := [⟨"default", 1, 4, 2⟩]
    acks := []
    users := [⟨4, some "santa-example"⟩]
    groupMembers := []
    groups := [1] }

theorem approveAddress_durable_witness :
    (approveAddress dbW8 1 2 9 5 (fun _ => none) (fun _ _ _ => false)).1 = 200 ∧
      (approveAddress dbW8 1 2 9 5 (fun _ => none) (fun _ _ _ => false)).2.1
        = { dbW8 with participations := replaceFirst (fun q => q.groupId == 1 && q.userId == 2) (partAddressApprove 9 5) dbW8.participations } ∧
      (replaceFirst (fun q => q.groupId == 1 && q.userId == 2) (partAddressApprove 9 5) dbW8.participations).find? (fun q => q.groupId == 1 && q.userId == 2)
        = some (partAddressApprove 9 5 ⟨1, 2, true, some "a", AStatus.PENDING, some 1, none, none⟩) ∧
      (partAddressApprove 9 5 ⟨1, 2, true, some "a", AStatus.PENDING, some 1, none, none⟩).addressStatus = AStatus.APPROVED ∧
      (partAddressApprove 9 5 ⟨1, 2, true, some "a", AStatus.PENDING, some 1, none, none⟩).addressApprovedAt = some 5 ∧
      (partAddressApprove 9 5 ⟨1, 2, true, some "a", AStatus.PENDING, some 1, none, none⟩).addressApprovedBy = some 9 :=
  approveAddress_durable dbW8 1 2 9 5
    ⟨1, 2, true, some "a", AStatus.PENDING, some 1, none, none⟩ rfl "a" rfl (by decide)
    (fun _ => none) (fun _ _ _ => false)

/-! ## The at-rest secret codec (`utils/cryptoUtil.js`)

`encrypt` runs `crypto.createCipheriv('aes-256-cbc', AES_KEY, AES_IV)` over
the UTF-8 bytes of the plaintext and returns the ciphertext base64-encoded;
`decrypt` parses the base64 and reverses the cipher.  `aes-256-cbc` is CBC
chaining with PKCS#7 padding around the AES-256 block permutation.  The
block permutation itself lives in OpenSSL, outside this repository, so it is
modelled as an abstract pair `E`/`D` of functions on 16-byte blocks whose
contract — `D` inverts `E`, `E` preserves the 16-byte block shape — enters
the round-trip theorem as hypotheses (the fixed 32-byte key is internal to
`E`/`D`; the fixed 16-byte IV, validated at boot, is the `iv` argument).
Bytes are `Nat`s below 256; plaintexts are the UTF-8 byte sequences the
source hands to `cipher.update(text, 'utf8')`. -/

def padLen (n : Nat) : Nat := 16 - n % 16

def pkcs7pad (m : List Nat) : List Nat :=
  m ++ List.replicate (padLen m.length) (padLen m.length)

def pkcs7unpad (m : List Nat) : Option (List Nat) :=
  match m.getLast? with
  | none => none
  | some k =>
    if k = 0 ∨ 16 < k ∨ m.length < k then none
    else if (m.drop (m.length - k)).all (fun b => b == k) then some (m.take (m.length - k))
    else none

def xorBytes (a b : List Nat) : List Nat := List.zipWith (fun x y => x ^^^ y) a b

def toBlocks (l : List Nat) : List (List Nat) :=
  if l = [] then [] else l.take 16 :: toBlocks (l.drop 16)
termination_by l.length
decreasing_by
  rw [List.length_drop]
  have : l.length ≠ 0 := fun hc => by
    simp only [List.length_eq_zero] at hc
    simp [hc] at *
  omega

def cbcEnc (E : List Nat → List Nat) : List Nat → List (List Nat) → List (List Nat)
  | _, [] => []
  | iv, b :: bs =>
    let c := E (xorBytes iv b)
    c :: cbcEnc E c bs

def cbcDec (D : List Nat → List Nat) : List Nat → List (List Nat) → List (List Nat)
  | _, [] => []
  | iv, c :: cs => xorBytes iv (D c) :: cbcDec D c cs

theorem padLen_pos (n : Nat) : 1 ≤ padLen n := by
  have := Nat.mod_lt n (show 0 < 16 by omega)
  unfold padLen
  omega

theorem padLen_le (n : Nat) : padLen n ≤ 16 := by
  unfold padLen
  omega

theorem length_pkcs7pad (m : List Nat) :
    (pkcs7pad m).length = m.length + padLen m.length := by
  rw [pkcs7pad, List.length_append, List.length_replicate]

theorem length_pkcs7pad_mod (m : List Nat) : (pkcs7pad m).length % 16 = 0 := by
  rw [length_pkcs7pad]
  unfold padLen
  omega

theorem getLast?_replicate_pos {k : Nat} (a : Nat) (h : 0 < k) :
    (List.replicate k a).getLast? = some a := by
  obtain ⟨j, rfl⟩ : ∃ j, k = j + 1 := ⟨k - 1, by omega⟩
  rw [List.replicate_succ', List.getLast?_concat]

theorem pkcs7unpad_pad (m : List Nat) : pkcs7unpad (pkcs7pad m) = some m := by
  have hpos := padLen_pos m.length
  have hle := padLen_le m.length
  have hlast : (pkcs7pad m).getLast? = some (padLen m.length) := by
    rw [pkcs7pad, List.getLast?_append, getLast?_replicate_pos _ (by omega)]
    rfl
  have hlen := length_pkcs7pad m
  have hsub : (pkcs7pad m).length - padLen m.length = m.length := by omega
  rw [pkcs7unpad, hlast]
  simp only
  rw [if_neg (by omega), hsub]
  have hdrop : (pkcs7pad m).drop m.length
      = List.replicate (padLen m.length) (padLen m.length) := by
    rw [pkcs7pad]
    exact List.drop_left m _
  have htake : (pkcs7pad m).take m.length = m := by
    rw [pkcs7pad]
    exact List.take_left m _
  rw [hdrop, htake, if_pos ?_]
  rw [List.all_eq_true]
  intro x hx
  rw [List.mem_replicate] at hx
  simp [hx.2]

theorem toBlocks_nil : toBlocks [] = [] := by
  unfold toBlocks
  simp

theorem flatten_toBlocks (l : List Nat) : (toBlocks l).flatten = l := by
  by_cases h : l = []
  · subst h
    rw [toBlocks_nil]
    rfl
  · rw [toBlocks, if_neg h, List.flatten_cons, flatten_toBlocks (l.drop 16),
      List.take_append_drop]
termination_by l.length
decreasing_by
  rw [List.length_drop]
  have : l.length ≠ 0 := fun hc => h (List.length_eq_zero.1 hc)
  omega

theorem toBlocks_blocks (l : List Nat) (hmod : l.length % 16 = 0) :
    ∀ b ∈ toBlocks l, b.length = 16 := by
  by_cases h : l = []
  · subst h
    intro b hb
    rw [toBlocks_nil] at hb
    cases hb
  · have hlen : l.length ≠ 0 := fun hc => h (List.length_eq_zero.1 hc)
    have h16 : 16 ≤ l.length := by omega
    intro b hb
    rw [toBlocks, if_neg h] at hb
    rcases List.mem_cons.1 hb with rfl | hb2
    · rw [List.length_take]
      omega
    · exact toBlocks_blocks (l.drop 16) (by rw [List.length_drop]; omega) b hb2
termination_by l.length
decreasing_by
  rw [List.length_drop]
  omega

theorem toBlocks_mem_subset (l : List Nat) :
    ∀ b ∈ toBlocks l, ∀ x ∈ b, x ∈ l := by
  by_cases h : l = []
  · subst h
    intro b hb
    rw [toBlocks_nil] at hb
    cases hb
  · intro b hb x hx
    rw [toBlocks, if_neg h] at hb
    rcases List.mem_cons.1 hb with rfl | hb2
    · exact List.mem_of_mem_take hx
    · exact List.mem_of_mem_drop (toBlocks_mem_subset (l.drop 16) b hb2 x hx)
termination_by l.length
decreasing_by
  rw [List.length_drop]
  have : l.length ≠ 0 := fun hc => h (List.length_eq_zero.1 hc)
  omega

theorem toBlocks_flatten (blocks : List (List Nat))
    (hlen : ∀ b ∈ blocks, b.length = 16) : toBlocks blocks.flatten = blocks := by
  induction blocks with
  | nil => simp [toBlocks_nil]
  | cons b bs ih =>
    have hb : b.length = 16 := hlen b (List.mem_cons_self _ _)
    have hne : b ++ bs.flatten ≠ [] := by
      intro hc
      have := congrArg List.length hc
      rw [List.length_append, hb, List.length_nil] at this
      omega
    rw [List.flatten_cons, toBlocks, if_neg hne]
    rw [show (16 : Nat) = b.length from hb.symm, List.take_left, List.drop_left,
      ih (fun c hc => hlen c (List.mem_cons_of_mem _ hc))]

theorem length_xorBytes (a b : List Nat) : (xorBytes a b).length = min a.length b.length := by
  rw [xorBytes, List.length_zipWith]

theorem xorBytes_xorBytes (a : List Nat) :
    ∀ b : List Nat, a.length = b.length → xorBytes a (xorBytes a b) = b := by
  induction a with
  | nil =>
    intro b hb
    rw [List.length_nil] at hb
    rw [(List.length_eq_zero.1 hb.symm : b = [])]
    rfl
  | cons x xs ih =>
    intro b hb
    cases b with
    | nil => cases hb
    | cons y ys =>
      show (x ^^^ (x ^^^ y)) :: xorBytes xs (xorBytes xs ys) = y :: ys
      rw [Nat.xor_cancel_left, ih ys (by simpa using hb)]

theorem mem_xorBytes {a : List Nat} :
    ∀ {b : List Nat} {x : Nat}, x ∈ xorBytes a b → ∃ y z, y ∈ a ∧ z ∈ b ∧ x = y ^^^ z := by
  induction a with
  | nil =>
    intro b x hx
    cases hx
  | cons y ys ih =>
    intro b x hx
    cases b with
    | nil => cases hx
    | cons z zs =>
      rcases List.mem_cons.1 hx with rfl | hx2
      · exact ⟨y, z, List.mem_cons_self _ _, List.mem_cons_self _ _, rfl⟩
      · obtain ⟨y2, z2, hy, hz, he⟩ := ih hx2
        exact ⟨y2, z2, List.mem_cons_of_mem _ hy, List.mem_cons_of_mem _ hz, he⟩

theorem xorBytes_bytes {a b : List Nat} (ha : ∀ x ∈ a, x < 256) (hb : ∀ x ∈ b, x < 256) :
    ∀ x ∈ xorBytes a b, x < 256 := by
  intro x hx
  obtain ⟨y, z, hy, hz, rfl⟩ := mem_xorBytes hx
  exact Nat.xor_lt_two_pow (n := 8) (ha y hy) (hb z hz)

theorem cbcDec_cbcEnc (E D : List Nat → List Nat)
    (hElen : ∀ b, b.length = 16 → (E b).length = 16)
    (hD : ∀ b, b.length = 16 → D (E b) = b) :
    ∀ (blocks : List (List Nat)) (iv : List Nat), iv.length = 16 →
      (∀ b ∈ blocks, b.length = 16) →
      cbcDec D iv (cbcEnc E iv blocks) = blocks := by
  intro blocks
  induction blocks with
  | nil =>
    intro iv _ _
    rfl
  | cons b bs ih =>
    intro iv hiv hlen
    have hb : b.length = 16 := hlen b (List.mem_cons_self _ _)
    have hxlen : (xorBytes iv b).length = 16 := by
      rw [length_xorBytes, hiv, hb]
      simp
    show xorBytes iv (D (E (xorBytes iv b)))
        :: cbcDec D (E (xorBytes iv b)) (cbcEnc E (E (xorBytes iv b)) bs)
      = b :: bs
    rw [hD _ hxlen, xorBytes_xorBytes iv b (by omega),
      ih (E (xorBytes iv b)) (hElen _ hxlen) (fun c hc => hlen c (List.mem_cons_of_mem _ hc))]

theorem cbcEnc_blocks (E : List Nat → List Nat)
    (hElen : ∀ b, b.length = 16 → (E b).length = 16)
    (hEbyte : ∀ b, b.length = 16 → (∀ x ∈ b, x < 256) → ∀ x ∈ E b, x < 256) :
    ∀ (blocks : List (List Nat)) (iv : List Nat), iv.length = 16 →
      (∀ x ∈ iv, x < 256) →
      (∀ b ∈ blocks, b.length = 16) → (∀ b ∈ blocks, ∀ x ∈ b, x < 256) →
      ∀ c ∈ cbcEnc E iv blocks, c.length = 16 ∧ ∀ x ∈ c, x < 256 := by
  intro blocks
  induction blocks with
  | nil =>
    intro iv _ _ _ _ c hc
    cases hc
  | cons b bs ih =>
    intro iv hiv hivb hlen hbyte c hc
    have hb : b.length = 16 := hlen b (List.mem_cons_self _ _)
    have hbb : ∀ x ∈ b, x < 256 := hbyte b (List.mem_cons_self _ _)
    have hxlen : (xorBytes iv b).length = 16 := by
      rw [length_xorBytes, hiv, hb]
      simp
    have hxbyte : ∀ x ∈ xorBytes iv b, x < 256 := xorBytes_bytes hivb hbb
    have hclen : (E (xorBytes iv b)).length = 16 := hElen _ hxlen
    have hcbyte : ∀ x ∈ E (xorBytes iv b), x < 256 := hEbyte _ hxlen hxbyte
    rw [show cbcEnc E iv (b :: bs)
        = E (xorBytes iv b) :: cbcEnc E (E (xorBytes iv b)) bs from rfl] at hc
    rcases List.mem_cons.1 hc with rfl | hc2
    · exact ⟨hclen, hcbyte⟩
    · exact ih (E (xorBytes iv b)) hclen hcbyte
        (fun d hd => hlen d (List.mem_cons_of_mem _ hd))
        (fun d hd => hbyte d (List.mem_cons_of_mem _ hd)) c hc2

def b64chars : List Char :=
  ['A', 'B', 'C', 'D', 'E', 'F', 'G', 'H', 'I', 'J', 'K', 'L', 'M',
   'N', 'O', 'P', 'Q', 'R', 'S', 'T', 'U', 'V', 'W', 'X', 'Y', 'Z',
   'a', 'b', 'c', 'd', 'e', 'f', 'g', 'h', 'i', 'j', 'k', 'l', 'm',
   'n', 'o', 'p', 'q', 'r', 's', 't', 'u', 'v', 'w', 'x', 'y', 'z',
   '0', '1', '2', '3', '4', '5', '6', '7', '8', '9', '+', '/']

def b64char (n : Nat) : Char := b64chars.getD n 'A'

def b64index (c : Char) : Nat := b64chars.indexOf c

def base64Encode : List Nat → List Char
  | [] => []
  | [a] => [b64char (a / 4), b64char (a % 4 * 16), '=', '=']
  | [a, b] => [b64char (a / 4), b64char (a % 4 * 16 + b / 16), b64char (b % 16 * 4), '=']
  | a :: b :: c :: rest =>
    b64char (a / 4) :: b64char (a % 4 * 16 + b / 16) :: b64char (b % 16 * 4 + c / 64)
      :: b64char (c % 64) :: base64Encode rest

def base64Decode : List Char → List Nat
  | c1 :: c2 :: c3 :: c4 :: rest =>
    if c3 = '=' then [b64index c1 * 4 + b64index c2 / 16]
    else if c4 = '=' then
      [b64index c1 * 4 + b64index c2 / 16, b64index c2 % 16 * 16 + b64index c3 / 4]
    else
      (b64index c1 * 4 + b64index c2 / 16)
        :: (b64index c2 % 16 * 16 + b64index c3 / 4)
        :: (b64index c3 % 4 * 64 + b64index c4)
        :: base64Decode rest
  | _ => []

theorem b64index_b64char : ∀ n, n < 64 → b64index (b64char n) = n := by decide

theorem b64char_ne_pad : ∀ n, n < 64 → b64char n ≠ '=' := by decide

theorem base64Decode_encode :
    ∀ bs : List Nat, (∀ x ∈ bs, x < 256) → base64Decode (base64Encode bs) = bs
  | [], _ => rfl
  | [a], hb => by
    have ha : a < 256 := hb a (by simp)
    show base64Decode [b64char (a / 4), b64char (a % 4 * 16), '=', '='] = [a]
    simp only [base64Decode]
    rw [if_pos trivial, b64index_b64char _ (by omega), b64index_b64char _ (by omega)]
    congr 1
    omega
  | [a, b], hb => by
    have ha : a < 256 := hb a (by simp)
    have hbb : b < 256 := hb b (by simp)
    show base64Decode [b64char (a / 4), b64char (a % 4 * 16 + b / 16),
      b64char (b % 16 * 4), '='] = [a, b]
    simp only [base64Decode]
    rw [if_pos trivial, b64index_b64char _ (by omega), b64index_b64char _ (by omega),
      b64index_b64char _ (by omega)]
    have h1 : (a / 4) * 4 + (a % 4 * 16 + b / 16) / 16 = a := by omega
    have h2 : (a % 4 * 16 + b / 16) % 16 * 16 + (b % 16 * 4) / 4 = b := by omega
    rw [h1, h2, if_neg (b64char_ne_pad _ (by omega))]
  | a :: b :: c :: rest2, hb => by
    have ha : a < 256 := hb a (by simp)
    have hbb : b < 256 := hb b (by simp)
    have hc : c < 256 := hb c (by simp)
    show base64Decode (b64char (a / 4) :: b64char (a % 4 * 16 + b / 16)
        :: b64char (b % 16 * 4 + c / 64) :: b64char (c % 64)
        :: base64Encode rest2) = a :: b :: c :: rest2
    simp only [base64Decode]
    rw [if_neg (b64char_ne_pad _ (by omega)), if_neg (b64char_ne_pad _ (by omega)),
      b64index_b64char _ (by omega), b64index_b64char _ (by omega),
      b64index_b64char _ (by omega), b64index_b64char _ (by omega),
      base64Decode_encode rest2 (fun x hx => hb x (by simp [hx]))]
    have h1 : (a / 4) * 4 + (a % 4 * 16 + b / 16) / 16 = a := by omega
    have h2 : (a % 4 * 16 + b / 16) % 16 * 16 + (b % 16 * 4 + c / 64) / 4 = b := by omega
    have h3 : (b % 16 * 4 + c / 64) % 4 * 64 + c % 64 = c := by omega
    rw [h1, h2, h3]

/-- `encrypt` of `utils/cryptoUtil.js` over plaintext bytes: pad, CBC-chain
through the block cipher from the fixed IV, base64 the concatenated
ciphertext. -/
def encryptBytes (E : List Nat → List Nat) (iv : List Nat) (pt : List Nat) : List Char :=
  base64Encode ((cbcEnc E iv (toBlocks (pkcs7pad pt))).flatten)

/-- `decrypt` of `utils/cryptoUtil.js`: parse the base64, CBC-decrypt from
the fixed IV, strip the PKCS#7 padding (`none` models the padding error
throw). -/
def decryptBytes (D : List Nat → List Nat) (iv : List Nat) (ct : List Char) :
    Option (List Nat) :=
  pkcs7unpad ((cbcDec D iv (toBlocks (base64Decode ct))).flatten)

/-- **C9.** For every plaintext byte sequence (the UTF-8 bytes of the source
string), `decrypt (encrypt s) = s`: the codec round-trips through the base64
ciphertext, given the external AES-256 block permutation's contract — the
fixed-key block decryption inverts block encryption, blocks stay 16 bytes of
byte values — and the boot-validated 16-byte IV. -/
theorem encrypt_decrypt_roundtrip (E D : List Nat → List Nat) (iv pt : List Nat)
    (hElen : ∀ b, b.length = 16 → (E b).length = 16)
    (hEbyte : ∀ b, b.length = 16 → (∀ x ∈ b, x < 256) → ∀ x ∈ E b, x < 256)
    (hD : ∀ b, b.length = 16 → D (E b) = b)
    (hiv : iv.length = 16) (hivb : ∀ x ∈ iv, x < 256)
    (hpt : ∀ x ∈ pt, x < 256) :
    decryptBytes D iv (encryptBytes E iv pt) = some pt := by
  have hpadb : ∀ x ∈ pkcs7pad pt, x < 256 := by
    intro x hx
    rw [pkcs7pad] at hx
    rcases List.mem_append.1 hx with h | h
    · exact hpt x h
    · rw [List.mem_replicate] at h
      have := padLen_le pt.length
      omega
  have hblen : ∀ b ∈ toBlocks (pkcs7pad pt), b.length = 16 :=
    toBlocks_blocks _ (length_pkcs7pad_mod pt)
  have hbbyte : ∀ b ∈ toBlocks (pkcs7pad pt), ∀ x ∈ b, x < 256 :=
    fun b hbm x hx => hpadb x (toBlocks_mem_subset _ b hbm x hx)
  have hcts := cbcEnc_blocks E hElen hEbyte (toBlocks (pkcs7pad pt)) iv hiv hivb hblen hbbyte
  have hctlen : ∀ c ∈ cbcEnc E iv (toBlocks (pkcs7pad pt)), c.length = 16 :=
    fun c hc => (hcts c hc).1
  have hflatb : ∀ x ∈ (cbcEnc E iv (toBlocks (pkcs7pad pt))).flatten, x < 256 := by
    intro x hx
    obtain ⟨c, hcm, hxm⟩ := List.mem_flatten.1 hx
    exact (hcts c hcm).2 x hxm
  rw [decryptBytes, encryptBytes, base64Decode_encode _ hflatb,
    toBlocks_flatten _ hctlen,
    cbcDec_cbcEnc E D hElen hD _ iv hiv hblen,
    flatten_toBlocks, pkcs7unpad_pad]

theorem encrypt_decrypt_roundtrip_witness :
    decryptBytes id (List.replicate 16 0) (encryptBytes id (List.replicate 16 0) [1, 2])
      = some [1, 2] :=
  encrypt_decrypt_roundtrip id id (List.replicate 16 0) [1, 2]
    (fun _ h => h) (fun _ _ h => h) (fun _ _ => rfl) (by decide) (by decide) (by decide)

end SecretSanta
